import Mathlib

/-!
Verification development for the WatermelonDB native core
(`src/native/shared`): a shallow embedding in Lean 4 of the slice
decoder, the sync-apply engine, the cursor/URL helpers and the sync
engine state machine, together with theorems settling the frozen
claims about them.

Machine integers are modelled as `Nat`/`Int` with explicit wrapping
where the C++ width matters.  Bytes of the decompressed slice buffer
are `Nat`s (values of `uint8_t`, produced by the decompressor).
-/

namespace Watermelon

/-- Wrap a `uint64_t` value into an `int64_t` the way a
`static_cast<int64_t>` does on the target platforms (two's complement). -/
def toInt64 (v : Nat) : Int :=
  let w : Nat := v % 2 ^ 64
  if w < 2 ^ 63 then (w : Int) else (w : Int) - 2 ^ 64

/-! ## VarintDecoder (SliceDecoder.cpp lines 8-76) -/

/-- Result of `VarintDecoder::decodeVarint`. -/
structure VarintResult where
  value : Nat
  bytesRead : Nat
  success : Bool
  invalid : Bool
deriving Repr, DecidableEq

/-- Default-constructed `DecodeResult` (value 0, 0 bytes, no flags). -/
def VarintResult.init : VarintResult :=
  { value := 0, bytesRead := 0, success := false, invalid := false }

/-- The do/while loop of `decodeVarint`.  `fuel` only bounds the
recursion; with the initial fuel of 11 the `bytesRead > 10` check
always fires before fuel runs out. -/
def varintGo (buf : List Nat) (off : Nat) :
    Nat → Nat → Nat → Nat → VarintResult
  | _, _, _, 0 =>
    { value := 0, bytesRead := 0, success := false, invalid := true }
  | value, shift, bytesRead, fuel + 1 =>
    if off + bytesRead ≥ buf.length then
      VarintResult.init
    else
      let byte := buf.getD (off + bytesRead) 0
      let value := (value ||| ((byte &&& 0x7F) <<< shift)) % 2 ^ 64
      let shift := shift + 7
      let bytesRead := bytesRead + 1
      if bytesRead > 10 then
        { value := 0, bytesRead := 0, success := false, invalid := true }
      else if byte &&& 0x80 ≠ 0 then
        varintGo buf off value shift bytesRead fuel
      else
        { value := value, bytesRead := bytesRead, success := true, invalid := false }

/-- `VarintDecoder::decodeVarint(buffer, bufferSize, offset)` with
`bufferSize = buf.length` (the callers always pass
`decompressedSize_`, which the source keeps equal to the buffer's
size). -/
def decodeVarint (buf : List Nat) (off : Nat) : VarintResult :=
  if off ≥ buf.length then VarintResult.init
  else varintGo buf off 0 0 0 11

/-- Result of `VarintDecoder::decodeString`. -/
structure StringResult where
  value : List Nat
  bytesRead : Nat
  success : Bool
  invalid : Bool
deriving Repr, DecidableEq

def MAX_STRING_LENGTH : Nat := 1024 * 1024
def MAX_FIELD_SIZE : Nat := 10 * 1024 * 1024
def MAX_COLUMN_NAME_LENGTH : Nat := 256
def MAX_TABLE_NAME_LENGTH : Nat := 256
def END_OF_TABLE_DELIMITER : Nat := 0xFF

/-- `VarintDecoder::decodeString` (length-prefixed byte string). -/
def decodeString (buf : List Nat) (off : Nat) : StringResult :=
  let lengthResult := decodeVarint buf off
  if lengthResult.invalid then
    { value := [], bytesRead := 0, success := false, invalid := true }
  else if !lengthResult.success then
    { value := [], bytesRead := 0, success := false, invalid := false }
  else
    let length := lengthResult.value
    if length > MAX_STRING_LENGTH then
      { value := [], bytesRead := 0, success := false, invalid := true }
    else
      let stringOffset := off + lengthResult.bytesRead
      if stringOffset + length > buf.length then
        { value := [], bytesRead := 0, success := false, invalid := false }
      else
        { value := (buf.drop stringOffset).take length,
          bytesRead := lengthResult.bytesRead + length,
          success := true, invalid := false }

/-! ## SliceDecoder parsing state (SliceDecoder.h / SliceDecoder.cpp) -/

inductive ParseStatus where
  | ok
  | needMoreData
  | endOfTable
  | endOfStream
  | error
deriving Repr, DecidableEq

/-- The parsing-relevant state of a `SliceDecoder`.  `decompressedSize_`
is `buffer.length` (the source keeps the two equal at every write). -/
structure DecoderState where
  streamEnded : Bool
  buffer : List Nat
  currentOffset : Nat
  headerParsed : Bool
  expectingTableHeader : Bool
  expectedTables : Int
  tablesParsed : Int
  errorMessage : String
deriving Repr, DecidableEq

/-- `SliceDecoder::setError`. -/
def setError (st : DecoderState) (e : String) : DecoderState :=
  { st with errorMessage := e }

/-- `SliceDecoder::remainingBytes`. -/
def remainingBytes (st : DecoderState) : Nat :=
  st.buffer.length - st.currentOffset

structure SliceHeader where
  sliceId : List Nat
  version : Int
  priority : List Nat
  timestamp : Int
  numberOfTables : Int
deriving Repr, DecidableEq

def SliceHeader.init : SliceHeader :=
  { sliceId := [], version := 0, priority := [], timestamp := 0, numberOfTables := 0 }

/-- One length-prefixed-string decode step of `parseSliceHeader`,
with its `invalid` / truncated / `NeedMoreData` returns; on success it
continues with the decoded bytes and the advanced local `offset`. -/
def stepString (st : DecoderState) (header : SliceHeader) (offset : Nat)
    (invalidMsg truncatedMsg : String)
    (k : List Nat → Nat → ParseStatus × SliceHeader × DecoderState) :
    ParseStatus × SliceHeader × DecoderState :=
  let r := decodeString st.buffer offset
  if r.invalid then (.error, header, setError st invalidMsg)
  else if !r.success then
    if st.streamEnded then (.error, header, setError st truncatedMsg)
    else (.needMoreData, header, st)
  else k r.value (offset + r.bytesRead)

/-- One varint decode step of `parseSliceHeader`, with its `invalid` /
truncated / `NeedMoreData` returns. -/
def stepVarint (st : DecoderState) (header : SliceHeader) (offset : Nat)
    (invalidMsg truncatedMsg : String)
    (k : Nat → Nat → ParseStatus × SliceHeader × DecoderState) :
    ParseStatus × SliceHeader × DecoderState :=
  let r := decodeVarint st.buffer offset
  if r.invalid then (.error, header, setError st invalidMsg)
  else if !r.success then
    if st.streamEnded then (.error, header, setError st truncatedMsg)
    else (.needMoreData, header, st)
  else k r.value (offset + r.bytesRead)

/-- `SliceDecoder::parseSliceHeader`: sliceId, version, priority,
timestamp, numberOfTables in sequence, then the range validation and
the state update. -/
def parseSliceHeader (st : DecoderState) : ParseStatus × SliceHeader × DecoderState :=
  let header := SliceHeader.init
  if st.headerParsed then
    (.error, header, setError st "Slice header already parsed")
  else
  if st.buffer.length - st.currentOffset = 0 then
    if st.streamEnded then
      (.error, header, setError st "Unexpected end of stream while parsing slice header")
    else (.needMoreData, header, st)
  else
  stepString st header st.currentOffset
    "Invalid sliceId: string too long or corrupt varint"
    "Failed to decode sliceId: truncated data" fun sliceId offset =>
  let header := { header with sliceId := sliceId }
  stepVarint st header offset
    "Invalid version: corrupt varint"
    "Failed to decode version: truncated data" fun version offset =>
  let header := { header with version := toInt64 version }
  stepString st header offset
    "Invalid priority: string too long or corrupt varint"
    "Failed to decode priority: truncated data" fun priority offset =>
  let header := { header with priority := priority }
  stepVarint st header offset
    "Invalid timestamp: corrupt varint"
    "Failed to decode timestamp: truncated data" fun timestamp offset =>
  let header := { header with timestamp := toInt64 timestamp }
  stepVarint st header offset
    "Invalid numberOfTables: corrupt varint"
    "Failed to decode numberOfTables: truncated data" fun numberOfTables offset =>
  let header := { header with numberOfTables := toInt64 numberOfTables }
  if header.numberOfTables < 0 ∨ header.numberOfTables > 10000 then
    (.error, header, setError st "Invalid numberOfTables: out of reasonable range")
  else
    (.ok, header,
      { st with currentOffset := offset, headerParsed := true,
                expectingTableHeader := true,
                expectedTables := header.numberOfTables, tablesParsed := 0 })

structure TableHeader where
  tableName : List Nat
  columns : List (List Nat)
deriving Repr, DecidableEq

def TableHeader.init : TableHeader := { tableName := [], columns := [] }

/-- Outcome of the column-name loop inside `parseTableHeader`. -/
inductive ColumnsOutcome where
  | err (msg : String)
  | needMore
  | done (columns : List (List Nat)) (offset : Nat)
deriving Repr, DecidableEq

/-- The `for (i < columnCount)` loop of `parseTableHeader` decoding
column names. -/
def parseColumnNames (buf : List Nat) (streamEnded : Bool) :
    Nat → Nat → List (List Nat) → ColumnsOutcome
  | 0, offset, acc => .done acc.reverse offset
  | n + 1, offset, acc =>
    let columnResult := decodeString buf offset
    if columnResult.invalid then
      .err "Invalid column name: string too long or corrupt varint"
    else if !columnResult.success then
      if streamEnded then .err "Failed to decode column name: truncated data"
      else .needMore
    else if columnResult.value.length = 0 ∨ columnResult.value.length > MAX_COLUMN_NAME_LENGTH then
      .err "Invalid column name length"
    else
      parseColumnNames buf streamEnded n (offset + columnResult.bytesRead) (columnResult.value :: acc)

/-- The table-name / column-count / column-names portion of
`SliceDecoder::parseTableHeader`, reached once the delimiter handling
has fallen through. -/
def parseTableHeaderBody (st : DecoderState) : ParseStatus × TableHeader × DecoderState :=
    let header := TableHeader.init
    let offset := st.currentOffset
    let tableNameResult := decodeString st.buffer offset
    if tableNameResult.invalid then
      (.error, header, setError st "Invalid table name: string too long or corrupt varint")
    else if !tableNameResult.success then
      if st.streamEnded then
        (.error, header, setError st "Failed to decode table name: truncated data")
      else (.needMoreData, header, st)
    else
    if tableNameResult.value.length = 0 ∨ tableNameResult.value.length > MAX_TABLE_NAME_LENGTH then
      (.error, header, setError st "Invalid table name length")
    else
    let header := { header with tableName := tableNameResult.value }
    let offset := offset + tableNameResult.bytesRead
    let columnCountResult := decodeVarint st.buffer offset
    if columnCountResult.invalid then
      (.error, header, setError st "Invalid column count: corrupt varint")
    else if !columnCountResult.success then
      if st.streamEnded then
        (.error, header, setError st "Failed to decode column count: truncated data")
      else (.needMoreData, header, st)
    else
    let columnCount := columnCountResult.value
    let offset := offset + columnCountResult.bytesRead
    if columnCount > 200 ∨ columnCount < 1 then
      (.error, header, setError st "Invalid column count")
    else
    match parseColumnNames st.buffer st.streamEnded columnCount offset [] with
    | .err msg => (.error, header, setError st msg)
    | .needMore => (.needMoreData, header, st)
    | .done columns offset =>
      (.ok, { header with columns := columns },
        { st with currentOffset := offset, expectingTableHeader := false,
                  tablesParsed := st.tablesParsed + 1 })

/-- `SliceDecoder::parseTableHeader`.  The two delimiter branches both
consume the `0xFF` byte (advancing `currentOffset_`) before they can
return `NeedMoreData`, exactly as in the source. -/
def parseTableHeader (st : DecoderState) : ParseStatus × TableHeader × DecoderState :=
  let header := TableHeader.init
  let available := st.buffer.length - st.currentOffset
  if available = 0 then
    if st.streamEnded then
      if st.tablesParsed < st.expectedTables then
        (.error, header, setError st "Stream ended before all expected tables were parsed")
      else (.endOfStream, header, st)
    else (.needMoreData, header, st)
  else
  if st.expectedTables > 0 ∧ st.tablesParsed ≥ st.expectedTables then
    if st.tablesParsed = st.expectedTables then
      (.endOfStream, header, st)
    else
      (.error, header, setError st "More tables in stream than declared in header")
  else
  if !st.expectingTableHeader then
    if st.buffer.getD st.currentOffset 0 ≠ END_OF_TABLE_DELIMITER then
      (.error, header, setError st "Expected end-of-table delimiter")
    else
      let st1 := { st with currentOffset := st.currentOffset + 1 }
      if st1.buffer.length - st1.currentOffset = 0 then
        if st1.streamEnded then
          if st1.expectedTables > 0 ∧ st1.tablesParsed < st1.expectedTables then
            (.error, header,
              setError st1 "Stream ended before all expected tables were parsed")
          else (.endOfStream, header, st1)
        else (.needMoreData, header, st1)
      else
        parseTableHeaderBody { st1 with expectingTableHeader := true }
  else
    if st.buffer.getD st.currentOffset 0 = END_OF_TABLE_DELIMITER then
      let st1 := { st with currentOffset := st.currentOffset + 1 }
      if st1.buffer.length - st1.currentOffset = 0 then
        if st1.streamEnded then
          if st1.expectedTables > 0 ∧ st1.tablesParsed < st1.expectedTables then
            (.error, header,
              setError st1 "Stream ended before all expected tables were parsed")
          else (.endOfStream, header, st1)
        else (.needMoreData, header, st1)
      else
        parseTableHeaderBody st1
    else
      parseTableHeaderBody st

/-- `FieldValue` (SliceDecoder.h).  A REAL keeps its raw big-endian
bit pattern: the claims never inspect floating-point values. -/
inductive FieldValue where
  | nullValue
  | intValue (v : Int)
  | realValue (bits : Nat)
  | textValue (bytes : List Nat)
  | blobValue (bytes : List Nat)
deriving Repr, DecidableEq

/-- `Row` is a `std::map<std::string, FieldValue>`: `row[column] = v`
inserts or assigns. -/
def rowAssign (row : List (List Nat × FieldValue)) (k : List Nat) (v : FieldValue) :
    List (List Nat × FieldValue) :=
  match row with
  | [] => [(k, v)]
  | (k', v') :: rest =>
    if k' = k then (k', v) :: rest else (k', v') :: rowAssign rest k v

/-- Outcome of the per-column loop inside `parseRow`. -/
inductive RowOutcome where
  | err (msg : String)
  | needMore
  | done (row : List (List Nat × FieldValue)) (offset : Nat)
deriving Repr, DecidableEq

/-- Big-endian fold of 8 bytes (the `value = (value << 8) | b` loop). -/
def beBytes (buf : List Nat) (offset : Nat) : Nat :=
  (List.range 8).foldl (fun acc i => acc * 256 + buf.getD (offset + i) 0) 0

/-- Outcome of one iteration of the `for (column : columns)` loop of
`parseRow`: decode one `[size varint][value][type tag]` field. -/
inductive FieldOutcome where
  | err (msg : String)
  | needMore
  | done (v : FieldValue) (offset : Nat)
deriving Repr, DecidableEq

/-- One iteration of the field loop of `parseRow`. -/
def parseField (buf : List Nat) (streamEnded : Bool) (offset : Nat) : FieldOutcome :=
  let sizeResult := decodeVarint buf offset
  if sizeResult.invalid then
    .err "Invalid field size: corrupt varint"
  else if !sizeResult.success then
    if streamEnded then .err "Failed to decode field size: truncated data"
    else .needMore
  else
  let fieldSize := sizeResult.value
  let offset := offset + sizeResult.bytesRead
  if fieldSize > MAX_FIELD_SIZE then
    .err "Field size exceeds maximum allowed"
  else if fieldSize = 0 then
    if offset ≥ buf.length then
      if streamEnded then .err "Truncated NULL field: missing type tag"
      else .needMore
    else
      .done .nullValue (offset + 1)
  else if buf.length < offset + fieldSize + 1 then
    if streamEnded then .err "Truncated field: missing value or type tag"
    else .needMore
  else
    let typeTag := buf.getD (offset + fieldSize) 0
    if typeTag = 0x00 then
      .done .nullValue (offset + fieldSize + 1)
    else if typeTag = 0x01 then
      if fieldSize ≠ 8 then .err "Invalid INT field size"
      else .done (.intValue (toInt64 (beBytes buf offset))) (offset + fieldSize + 1)
    else if typeTag = 0x02 then
      if fieldSize ≠ 8 then .err "Invalid REAL field size"
      else .done (.realValue (beBytes buf offset)) (offset + fieldSize + 1)
    else if typeTag = 0x03 then
      .done (.textValue ((buf.drop offset).take fieldSize)) (offset + fieldSize + 1)
    else if typeTag = 0x04 then
      .done (.blobValue ((buf.drop offset).take fieldSize)) (offset + fieldSize + 1)
    else
      .err "Unknown type tag"

/-- The `for (column : columns)` loop of `parseRow`. -/
def parseRowFields (buf : List Nat) (streamEnded : Bool) :
    List (List Nat) → Nat → List (List Nat × FieldValue) → RowOutcome
  | [], offset, row => .done row offset
  | column :: rest, offset, row =>
    match parseField buf streamEnded offset with
    | .err msg => .err msg
    | .needMore => .needMore
    | .done v offset => parseRowFields buf streamEnded rest offset (rowAssign row column v)

/-- `SliceDecoder::parseRow`. -/
def parseRow (st : DecoderState) (columns : List (List Nat)) :
    ParseStatus × List (List Nat × FieldValue) × DecoderState :=
  let available := st.buffer.length - st.currentOffset
  if available = 0 then
    if st.streamEnded then
      (.error, [], setError st "Unexpected end of stream while parsing row")
    else (.needMoreData, [], st)
  else
  if st.buffer.getD st.currentOffset 0 = END_OF_TABLE_DELIMITER then
    (.endOfTable, [], { st with expectingTableHeader := true })
  else
  match parseRowFields st.buffer st.streamEnded columns st.currentOffset [] with
  | .err msg => (.error, [], setError st msg)
  | .needMore => (.needMoreData, [], st)
  | .done row offset =>
    (.ok, row, { st with currentOffset := offset })

/-! ## Helper lemmas about the decoder primitives -/

theorem varintGo_success_bytesRead (buf : List Nat) (off : Nat) :
    ∀ (fuel value shift bytesRead : Nat) (r : VarintResult),
      varintGo buf off value shift bytesRead fuel = r →
      r.success = true → bytesRead < r.bytesRead := by
  intro fuel
  induction fuel with
  | zero =>
    intro value shift bytesRead r hr h
    rw [varintGo] at hr; subst hr; simp at h
  | succ n ih =>
    intro value shift bytesRead r hr h
    rw [varintGo] at hr
    dsimp only at hr
    split at hr
    · subst hr; simp [VarintResult.init] at h
    · split at hr
      · subst hr; simp at h
      · split at hr
        · exact lt_trans (Nat.lt_succ_self _) (ih _ _ _ _ hr h)
        · subst hr; simp

theorem decodeVarint_success_pos (buf : List Nat) (off : Nat)
    (r : VarintResult) (hr : decodeVarint buf off = r) (h : r.success = true) :
    0 < r.bytesRead := by
  unfold decodeVarint at hr
  split at hr
  · subst hr; simp [VarintResult.init] at h
  · exact varintGo_success_bytesRead buf off 11 0 0 0 r hr h

theorem decodeString_success_pos (buf : List Nat) (off : Nat)
    (r : StringResult) (hr : decodeString buf off = r) (h : r.success = true) :
    0 < r.bytesRead := by
  unfold decodeString at hr
  dsimp only at hr
  split at hr
  · subst hr; simp at h
  · split at hr
    · subst hr; simp at h
    · split at hr
      · subst hr; simp at h
      · split at hr
        · subst hr; simp at h
        · subst hr
          have hs : (decodeVarint buf off).success = true := by
            rename_i h1 h2 _ _
            simpa using h2
          have := decodeVarint_success_pos buf off _ rfl hs
          simp only
          omega

theorem parseColumnNames_done_le (buf : List Nat) (e : Bool) :
    ∀ (n offset : Nat) (acc cols : List (List Nat)) (o' : Nat),
      parseColumnNames buf e n offset acc = .done cols o' → offset ≤ o' := by
  intro n
  induction n with
  | zero =>
    intro offset acc cols o' h
    simp [parseColumnNames] at h
    omega
  | succ m ih =>
    intro offset acc cols o' h
    rw [parseColumnNames] at h
    split at h
    · cases h
    · split at h
      · split at h <;> cases h
      · split at h
        · cases h
        · exact le_trans (Nat.le_add_right _ _) (ih _ _ _ _ h)

set_option maxHeartbeats 2000000 in
theorem parseField_done_lt (buf : List Nat) (e : Bool) (offset : Nat)
    (v : FieldValue) (o' : Nat)
    (h : parseField buf e offset = .done v o') : offset < o' := by
  unfold parseField at h
  generalize hsz : decodeVarint buf offset = sz at h
  dsimp only at h
  have hpos : sz.success = true → 0 < sz.bytesRead :=
    fun hs => decodeVarint_success_pos buf offset _ hsz hs
  clear hsz
  split at h
  · cases h
  · split at h
    · split at h <;> cases h
    · rename_i hinv hsucc
      have hpos' : 0 < sz.bytesRead := by
        apply hpos
        revert hsucc
        cases sz.success <;> simp
      split at h
      · cases h
      · split at h
        · split at h
          · split at h <;> cases h
          · cases h; omega
        · split at h
          · split at h <;> cases h
          · split at h
            · cases h; omega
            · split at h
              · split at h
                · cases h
                · cases h; omega
              · split at h
                · split at h
                  · cases h
                  · cases h; omega
                · split at h
                  · cases h; omega
                  · split at h
                    · cases h; omega
                    · cases h

theorem parseRowFields_done_le (buf : List Nat) (e : Bool) :
    ∀ (cols : List (List Nat)) (offset : Nat) (row r : List (List Nat × FieldValue)) (o' : Nat),
      parseRowFields buf e cols offset row = .done r o' → offset ≤ o' := by
  intro cols
  induction cols with
  | nil =>
    intro offset row r o' h
    rw [parseRowFields] at h
    cases h
    exact le_refl _
  | cons c rest ih =>
    intro offset row r o' h
    rw [parseRowFields] at h
    split at h
    · cases h
    · cases h
    · rename_i v o1 hfield
      exact le_trans (le_of_lt (parseField_done_lt buf e offset v o1 hfield)) (ih _ _ _ _ h)

theorem parseRowFields_done_lt (buf : List Nat) (e : Bool)
    (c : List Nat) (rest : List (List Nat)) (offset : Nat)
    (row r : List (List Nat × FieldValue)) (o' : Nat)
    (h : parseRowFields buf e (c :: rest) offset row = .done r o') : offset < o' := by
  rw [parseRowFields] at h
  split at h
  · cases h
  · cases h
  · rename_i v o1 hfield
    exact lt_of_lt_of_le (parseField_done_lt buf e offset v o1 hfield)
      (parseRowFields_done_le buf e _ _ _ _ _ h)

theorem stepString_cases (st : DecoderState) (hd : SliceHeader) (off : Nat)
    (m1 m2 : String) (k : List Nat → Nat → ParseStatus × SliceHeader × DecoderState) :
    stepString st hd off m1 m2 k = (ParseStatus.needMoreData, hd, st) ∨
    (∃ msg, stepString st hd off m1 m2 k = (ParseStatus.error, hd, setError st msg)) ∨
    (∃ v off', off < off' ∧ stepString st hd off m1 m2 k = k v off') := by
  unfold stepString
  dsimp only
  generalize hr : decodeString st.buffer off = r
  have hp : r.success = true → 0 < r.bytesRead :=
    fun hs => decodeString_success_pos st.buffer off _ hr hs
  clear hr
  split
  · exact Or.inr (Or.inl ⟨m1, rfl⟩)
  · split
    · split
      · exact Or.inr (Or.inl ⟨m2, rfl⟩)
      · exact Or.inl rfl
    · rename_i hsucc
      refine Or.inr (Or.inr ⟨r.value, off + r.bytesRead, ?_, rfl⟩)
      have : 0 < r.bytesRead := by
        apply hp
        revert hsucc
        cases r.success <;> simp
      omega

theorem stepVarint_cases (st : DecoderState) (hd : SliceHeader) (off : Nat)
    (m1 m2 : String) (k : Nat → Nat → ParseStatus × SliceHeader × DecoderState) :
    stepVarint st hd off m1 m2 k = (ParseStatus.needMoreData, hd, st) ∨
    (∃ msg, stepVarint st hd off m1 m2 k = (ParseStatus.error, hd, setError st msg)) ∨
    (∃ v off', off ≤ off' ∧ stepVarint st hd off m1 m2 k = k v off') := by
  unfold stepVarint
  dsimp only
  generalize hr : decodeVarint st.buffer off = r
  clear hr
  split
  · exact Or.inr (Or.inl ⟨m1, rfl⟩)
  · split
    · split
      · exact Or.inr (Or.inl ⟨m2, rfl⟩)
      · exact Or.inl rfl
    · exact Or.inr (Or.inr ⟨r.value, off + r.bytesRead, Nat.le_add_right _ _, rfl⟩)

theorem parseSliceHeader_cases (st : DecoderState) :
    ((parseSliceHeader st).1 = ParseStatus.needMoreData → (parseSliceHeader st).2.2 = st) ∧
    ((parseSliceHeader st).1 = ParseStatus.ok →
      st.currentOffset < (parseSliceHeader st).2.2.currentOffset) := by
  unfold parseSliceHeader
  dsimp only
  split
  · simp
  · split
    · split <;> simp
    · rcases stepString_cases st SliceHeader.init st.currentOffset
        "Invalid sliceId: string too long or corrupt varint"
        "Failed to decode sliceId: truncated data" _ with h | ⟨msg, h⟩ | ⟨v1, o1, ho1, h⟩ <;>
        rw [h]
      · simp
      · simp
      · rcases stepVarint_cases st _ o1
          "Invalid version: corrupt varint"
          "Failed to decode version: truncated data" _ with h2 | ⟨msg, h2⟩ | ⟨v2, o2, ho2, h2⟩ <;>
          rw [h2]
        · simp
        · simp
        · rcases stepString_cases st _ o2
            "Invalid priority: string too long or corrupt varint"
            "Failed to decode priority: truncated data" _ with h3 | ⟨msg, h3⟩ | ⟨v3, o3, ho3, h3⟩ <;>
            rw [h3]
          · simp
          · simp
          · rcases stepVarint_cases st _ o3
              "Invalid timestamp: corrupt varint"
              "Failed to decode timestamp: truncated data" _ with h4 | ⟨msg, h4⟩ | ⟨v4, o4, ho4, h4⟩ <;>
              rw [h4]
            · simp
            · simp
            · rcases stepVarint_cases st _ o4
                "Invalid numberOfTables: corrupt varint"
                "Failed to decode numberOfTables: truncated data" _ with h5 | ⟨msg, h5⟩ | ⟨v5, o5, ho5, h5⟩ <;>
                rw [h5]
              · simp
              · simp
              · split
                · simp
                · refine ⟨by simp, fun _ => ?_⟩
                  simp only
                  omega

set_option maxHeartbeats 2000000 in
theorem parseTableHeaderBody_cases (st : DecoderState) :
    (parseTableHeaderBody st).1 ≠ ParseStatus.endOfStream ∧
    ((parseTableHeaderBody st).1 = ParseStatus.needMoreData → (parseTableHeaderBody st).2.2 = st) ∧
    ((parseTableHeaderBody st).1 = ParseStatus.ok →
      st.currentOffset < (parseTableHeaderBody st).2.2.currentOffset ∧
      (parseTableHeaderBody st).2.2.tablesParsed = st.tablesParsed + 1 ∧
      (parseTableHeaderBody st).2.2.expectedTables = st.expectedTables) ∧
    ((parseTableHeaderBody st).1 = ParseStatus.error →
      (parseTableHeaderBody st).2.2.tablesParsed = st.tablesParsed ∧
      (parseTableHeaderBody st).2.2.expectedTables = st.expectedTables) := by
  unfold parseTableHeaderBody
  dsimp only
  generalize htn : decodeString st.buffer st.currentOffset = tn
  have htnpos : tn.success = true → 0 < tn.bytesRead :=
    fun hs => decodeString_success_pos st.buffer st.currentOffset _ htn hs
  clear htn
  generalize hcc : decodeVarint st.buffer (st.currentOffset + tn.bytesRead) = cc
  clear hcc
  generalize hpc : parseColumnNames st.buffer st.streamEnded cc.value
      (st.currentOffset + tn.bytesRead + cc.bytesRead) [] = pcn
  have hple : ∀ cols o', pcn = ColumnsOutcome.done cols o' →
      st.currentOffset + tn.bytesRead + cc.bytesRead ≤ o' := by
    intro cols o' hd
    exact parseColumnNames_done_le st.buffer st.streamEnded _ _ _ _ _ (hpc.trans hd)
  clear hpc
  split
  · simp [setError]
  · split
    · split <;> simp_all [setError]
    · rename_i hinv hsucc
      have h1 : 0 < tn.bytesRead := by
        apply htnpos
        revert hsucc
        cases tn.success <;> simp
      split
      · simp [setError]
      · split
        · simp [setError]
        · split
          · split <;> simp_all [setError]
          · split
            · simp [setError]
            · split
              · simp [setError]
              · simp [setError]
              · rename_i a b c
                have hlt : st.currentOffset < c := by
                  have := hple b c rfl
                  omega
                refine ⟨by simp, by simp, fun _ => ⟨by simpa using hlt, by simp, by simp⟩, by simp⟩

set_option maxHeartbeats 1000000 in
theorem parseTableHeader_cases (st : DecoderState) :
    ((parseTableHeader st).1 = ParseStatus.needMoreData →
      st.currentOffset ≤ (parseTableHeader st).2.2.currentOffset ∧
      (parseTableHeader st).2.2.currentOffset ≤ st.currentOffset + 1) ∧
    ((parseTableHeader st).1 = ParseStatus.ok →
      st.currentOffset < (parseTableHeader st).2.2.currentOffset ∧
      (parseTableHeader st).2.2.tablesParsed = st.tablesParsed + 1 ∧
      ¬(st.expectedTables > 0 ∧ st.tablesParsed ≥ st.expectedTables)) ∧
    ((parseTableHeader st).1 = ParseStatus.endOfStream →
      st.expectedTables ≤ 0 ∨ st.tablesParsed ≥ st.expectedTables) ∧
    (0 < st.expectedTables → st.tablesParsed = st.expectedTables →
      (parseTableHeader st).1 = ParseStatus.endOfStream ∨
      (parseTableHeader st).1 = ParseStatus.needMoreData) := by
  unfold parseTableHeader
  dsimp only
  split
  · split
    · split
      · rename_i hlt
        refine ⟨by simp, by simp, by simp, fun hp he => ?_⟩
        exact absurd he (by omega)
      · rename_i hnlt
        refine ⟨by simp, by simp, fun _ => ?_, fun _ _ => Or.inl rfl⟩
        right; omega
    · exact ⟨fun _ => by simp, by simp, by simp, fun _ _ => Or.inr rfl⟩
  · split
    · split
      · rename_i hge heq
        refine ⟨by simp, by simp, fun _ => ?_, fun _ _ => Or.inl rfl⟩
        right; omega
      · rename_i hge hne
        refine ⟨by simp, by simp, by simp, fun hp he => ?_⟩
        exact absurd he hne
    · rename_i hnav hnge
      split
      · split
        · refine ⟨by simp, by simp, by simp, fun hp he => ?_⟩
          exact absurd he (by omega)
        · split
          · split
            · split
              · refine ⟨by simp, by simp, by simp, fun hp he => ?_⟩
                exact absurd he (by omega)
              · refine ⟨by simp, by simp, fun _ => ?_, fun _ _ => Or.inl rfl⟩
                omega
            · refine ⟨fun _ => by simp, by simp, by simp, fun _ _ => Or.inr rfl⟩
          · have hb := parseTableHeaderBody_cases
              { st with currentOffset := st.currentOffset + 1, expectingTableHeader := true }
            refine ⟨fun h => ?_, fun h => ?_, fun h => ?_, fun hp he => ?_⟩
            · have := hb.2.1 h
              rw [this]
              exact ⟨Nat.le_succ _, le_refl _⟩
            · obtain ⟨hlt, hparsed, hexp⟩ := hb.2.2.1 h
              exact ⟨Nat.lt_of_le_of_lt (Nat.le_succ _) hlt, hparsed, hnge⟩
            · exact absurd h hb.1
            · exact absurd he (by omega)
      · split
        · split
          · split
            · split
              · refine ⟨by simp, by simp, by simp, fun hp he => ?_⟩
                exact absurd he (by omega)
              · refine ⟨by simp, by simp, fun _ => ?_, fun _ _ => Or.inl rfl⟩
                omega
            · refine ⟨fun _ => by simp, by simp, by simp, fun _ _ => Or.inr rfl⟩
          · have hb := parseTableHeaderBody_cases
              { st with currentOffset := st.currentOffset + 1 }
            refine ⟨fun h => ?_, fun h => ?_, fun h => ?_, fun hp he => ?_⟩
            · have := hb.2.1 h
              rw [this]
              exact ⟨Nat.le_succ _, le_refl _⟩
            · obtain ⟨hlt, hparsed, hexp⟩ := hb.2.2.1 h
              exact ⟨Nat.lt_of_le_of_lt (Nat.le_succ _) hlt, hparsed, hnge⟩
            · exact absurd h hb.1
            · exact absurd he (by omega)
        · have hb := parseTableHeaderBody_cases st
          refine ⟨fun h => ?_, fun h => ?_, fun h => ?_, fun hp he => ?_⟩
          · have := hb.2.1 h
            rw [this]
            exact ⟨le_refl _, Nat.le_succ _⟩
          · obtain ⟨hlt, hparsed, hexp⟩ := hb.2.2.1 h
            exact ⟨hlt, hparsed, hnge⟩
          · exact absurd h hb.1
          · exact absurd he (by omega)

theorem parseRow_cases (st : DecoderState) (columns : List (List Nat)) :
    ((parseRow st columns).1 = ParseStatus.needMoreData → (parseRow st columns).2.2 = st) ∧
    ((parseRow st columns).1 = ParseStatus.ok → columns ≠ [] →
      st.currentOffset < (parseRow st columns).2.2.currentOffset) := by
  unfold parseRow
  dsimp only
  split
  · split <;> simp
  · split
    · simp
    · split
      · simp
      · simp
      · rename_i row o' hdone
        refine ⟨by simp, fun _ hcols => ?_⟩
        obtain ⟨c, rest, rfl⟩ := List.exists_cons_of_ne_nil hcols
        exact parseRowFields_done_lt st.buffer st.streamEnded c rest st.currentOffset [] row o' hdone

/-! ## Claims C7 and C8: SliceDecoder parsing discipline -/

/-- Concrete decoder state for the C7 counterexample: one declared
table, one table already parsed, and a complete further table header
(name "t", one column "c") still in the buffer. -/
def C7state : DecoderState :=
  { streamEnded := true, buffer := [1, 116, 1, 1, 99], currentOffset := 0,
    headerParsed := true, expectingTableHeader := true,
    expectedTables := 1, tablesParsed := 1, errorMessage := "" }

/-- Claim C7, counterexample: with `numberOfTables = 1` already
satisfied and more table data in the buffer, `parseTableHeader`
returns `EndOfStream`, not `Error` as the claim states. -/
theorem C7_counterexample :
    (parseTableHeader C7state).1 = ParseStatus.endOfStream ∧
    (parseTableHeader C7state).1 ≠ ParseStatus.error := by decide

/-- Claim C7 (amended): for a stream declaring `numberOfTables = N > 0`,
`parseTableHeader` returns `Ok` exactly `N` times before `EndOfStream`
(`Ok` only while `tablesParsed < N`, incrementing the counter, and
`EndOfStream` only once `tablesParsed = N`); once the `N` tables are
parsed the decoder never reports `Error` — data present after the
`N`-th table yields `EndOfStream` (or `NeedMoreData` on an empty
buffer), not an error. -/
theorem C7_parseTableHeader_table_count (st : DecoderState)
    (hpos : 0 < st.expectedTables) (hle : st.tablesParsed ≤ st.expectedTables) :
    ((parseTableHeader st).1 = ParseStatus.ok →
      st.tablesParsed < st.expectedTables ∧
      (parseTableHeader st).2.2.tablesParsed = st.tablesParsed + 1) ∧
    ((parseTableHeader st).1 = ParseStatus.endOfStream →
      st.tablesParsed = st.expectedTables) ∧
    (st.tablesParsed = st.expectedTables →
      (parseTableHeader st).1 ≠ ParseStatus.error ∧
      ((parseTableHeader st).1 = ParseStatus.endOfStream ∨
        (parseTableHeader st).1 = ParseStatus.needMoreData)) := by
  obtain ⟨hnmd, hok, heos, hfin⟩ := parseTableHeader_cases st
  refine ⟨fun h => ?_, fun h => ?_, fun he => ?_⟩
  · obtain ⟨_, hparsed, hnot⟩ := hok h
    have : ¬(st.tablesParsed ≥ st.expectedTables) := fun hge => hnot ⟨hpos, hge⟩
    exact ⟨by omega, hparsed⟩
  · have := heos h
    omega
  · rcases hfin hpos he with h | h
    · exact ⟨by rw [h]; simp, Or.inl h⟩
    · exact ⟨by rw [h]; simp, Or.inr h⟩

/-- State for the C7 witness: one declared table, none parsed yet, a
complete table header in the buffer. -/
def C7stateW : DecoderState :=
  { streamEnded := true, buffer := [1, 116, 1, 1, 99], currentOffset := 0,
    headerParsed := true, expectingTableHeader := true,
    expectedTables := 1, tablesParsed := 0, errorMessage := "" }

/-- Witness for `C7_parseTableHeader_table_count` at `C7stateW`. -/
theorem C7_table_count_witness :
    0 < C7stateW.expectedTables ∧ C7stateW.tablesParsed ≤ C7stateW.expectedTables ∧
    (((parseTableHeader C7stateW).1 = ParseStatus.ok →
      C7stateW.tablesParsed < C7stateW.expectedTables ∧
      (parseTableHeader C7stateW).2.2.tablesParsed = C7stateW.tablesParsed + 1) ∧
    ((parseTableHeader C7stateW).1 = ParseStatus.endOfStream →
      C7stateW.tablesParsed = C7stateW.expectedTables) ∧
    (C7stateW.tablesParsed = C7stateW.expectedTables →
      (parseTableHeader C7stateW).1 ≠ ParseStatus.error ∧
      ((parseTableHeader C7stateW).1 = ParseStatus.endOfStream ∨
        (parseTableHeader C7stateW).1 = ParseStatus.needMoreData))) :=
  ⟨by decide, by decide,
    C7_parseTableHeader_table_count C7stateW (by decide) (by decide)⟩

/-- Concrete decoder state for the C8 counterexample: the buffer holds
exactly one end-of-table delimiter and the stream has not ended. -/
def C8state : DecoderState :=
  { streamEnded := false, buffer := [255], currentOffset := 0, headerParsed := true,
    expectingTableHeader := true, expectedTables := 2, tablesParsed := 1,
    errorMessage := "" }

/-- Claim C8, counterexample: `parseTableHeader` consumes the
end-of-table delimiter and then returns `NeedMoreData` with
`currentOffset` advanced from 0 to 1, so `NeedMoreData` does not leave
the read offset unchanged. -/
theorem C8_counterexample :
    (parseTableHeader C8state).1 = ParseStatus.needMoreData ∧
    (parseTableHeader C8state).2.2.currentOffset = 1 ∧
    C8state.currentOffset = 0 := by decide

/-- Claim C8 (amended): `parseSliceHeader` and `parseRow` leave
`currentOffset` unchanged on `NeedMoreData` and advance it strictly on
`Ok` (for `parseRow`, with the nonempty column list a parsed table
header supplies); `parseTableHeader` advances strictly on `Ok`, but on
`NeedMoreData` it may advance the offset by one byte — consuming an
end-of-table delimiter — before running out of data. -/
theorem C8_parse_offset_discipline (st : DecoderState) (columns : List (List Nat))
    (hcols : columns ≠ []) :
    ((parseSliceHeader st).1 = ParseStatus.needMoreData →
      (parseSliceHeader st).2.2.currentOffset = st.currentOffset) ∧
    ((parseSliceHeader st).1 = ParseStatus.ok →
      st.currentOffset < (parseSliceHeader st).2.2.currentOffset) ∧
    ((parseRow st columns).1 = ParseStatus.needMoreData →
      (parseRow st columns).2.2.currentOffset = st.currentOffset) ∧
    ((parseRow st columns).1 = ParseStatus.ok →
      st.currentOffset < (parseRow st columns).2.2.currentOffset) ∧
    ((parseTableHeader st).1 = ParseStatus.ok →
      st.currentOffset < (parseTableHeader st).2.2.currentOffset) ∧
    ((parseTableHeader st).1 = ParseStatus.needMoreData →
      st.currentOffset ≤ (parseTableHeader st).2.2.currentOffset ∧
      (parseTableHeader st).2.2.currentOffset ≤ st.currentOffset + 1) := by
  obtain ⟨hs1, hs2⟩ := parseSliceHeader_cases st
  obtain ⟨hr1, hr2⟩ := parseRow_cases st columns
  obtain ⟨ht1, ht2, _, _⟩ := parseTableHeader_cases st
  exact ⟨fun h => by rw [hs1 h], hs2,
    fun h => by rw [hr1 h], fun h => hr2 h hcols,
    fun h => (ht2 h).1, ht1⟩

/-- Empty decoder state for the C8 witness. -/
def C8stateW : DecoderState :=
  { streamEnded := false, buffer := [], currentOffset := 0, headerParsed := false,
    expectingTableHeader := true, expectedTables := 0, tablesParsed := 0,
    errorMessage := "" }

/-- Witness for `C8_parse_offset_discipline` at `C8stateW` with one column. -/
theorem C8_offset_discipline_witness :
    (([[99]] : List (List Nat)) ≠ []) ∧
    (((parseSliceHeader C8stateW).1 = ParseStatus.needMoreData →
      (parseSliceHeader C8stateW).2.2.currentOffset = C8stateW.currentOffset) ∧
    ((parseSliceHeader C8stateW).1 = ParseStatus.ok →
      C8stateW.currentOffset < (parseSliceHeader C8stateW).2.2.currentOffset) ∧
    ((parseRow C8stateW [[99]]).1 = ParseStatus.needMoreData →
      (parseRow C8stateW [[99]]).2.2.currentOffset = C8stateW.currentOffset) ∧
    ((parseRow C8stateW [[99]]).1 = ParseStatus.ok →
      C8stateW.currentOffset < (parseRow C8stateW [[99]]).2.2.currentOffset) ∧
    ((parseTableHeader C8stateW).1 = ParseStatus.ok →
      C8stateW.currentOffset < (parseTableHeader C8stateW).2.2.currentOffset) ∧
    ((parseTableHeader C8stateW).1 = ParseStatus.needMoreData →
      C8stateW.currentOffset ≤ (parseTableHeader C8stateW).2.2.currentOffset ∧
      (parseTableHeader C8stateW).2.2.currentOffset ≤ C8stateW.currentOffset + 1)) :=
  ⟨by decide, C8_parse_offset_discipline C8stateW [[99]] (by decide)⟩

/-! ## SyncEngine URL helpers (SyncEngine.cpp lines 24-89) -/

/-- ASCII bytes of a Lean string literal (used only to write concrete
byte strings readably; all URL machinery works on bytes). -/
def ascii (s : String) : List Nat := s.toList.map Char.toNat

/-- `isUnreservedUrlChar` (isalnum in the C locale, `-`, `_`, `.`, `~`). -/
def isUnreservedUrlChar (c : Nat) : Bool :=
  (48 ≤ c ∧ c ≤ 57) ∨ (65 ≤ c ∧ c ≤ 90) ∨ (97 ≤ c ∧ c ≤ 122) ∨
    c = 45 ∨ c = 95 ∨ c = 46 ∨ c = 126

/-- Byte of an uppercase hexadecimal digit. -/
def hexDigitUpper (n : Nat) : Nat :=
  if n < 10 then 48 + n else 55 + n

/-- `urlEncode`: unreserved bytes pass through, all others become
`%XX` with two uppercase hex digits. -/
def urlEncode (value : List Nat) : List Nat :=
  value.flatMap fun c =>
    if isUnreservedUrlChar c then [c]
    else [37, hexDigitUpper (c / 16 % 16), hexDigitUpper (c % 16)]

/-- The bytes of `"cursor="`. -/
def cursorKeyBytes : List Nat := ascii "cursor="

/-- `part.rfind("cursor=", 0) == 0`: the segment starts with `cursor=`. -/
def isCursorPart (p : List Nat) : Bool := List.isPrefixOf cursorKeyBytes p

/-- The query-rewriting loop of `buildUrlWithCursor`: every segment
starting with `cursor=` is replaced by `cursor=` + the encoded cursor;
`replaced` records whether any segment was. -/
def replaceLoop (encCursor : List Nat) : List (List Nat) → List (List Nat) × Bool
  | [] => ([], false)
  | p :: rest =>
    let r := replaceLoop encCursor rest
    if isCursorPart p then ((cursorKeyBytes ++ encCursor) :: r.1, true)
    else (p :: r.1, r.2)

/-- Nonempty `&`-separated segments of a query string, in order
(the C++ loop skips empty segments). -/
def querySegmentsOf (query : List Nat) : List (List Nat) :=
  (query.splitOn 38).filter (fun p => !p.isEmpty)

/-- `buildUrlWithCursor(baseUrl, cursor, encoded)`. -/
def buildUrlWithCursor (baseUrl cursor : List Nat) (encoded : Bool) : List Nat :=
  let encodedCursor := if encoded then cursor else urlEncode cursor
  let base := baseUrl.takeWhile (fun c => c != 63)
  let query := baseUrl.drop (base.length + 1)
  let r := replaceLoop encodedCursor (querySegmentsOf query)
  let parts := if r.2 then r.1 else r.1 ++ [cursorKeyBytes ++ encodedCursor]
  if parts.isEmpty then base
  else base ++ [63] ++ List.intercalate [38] parts

/-! ## simdjson elements and `extractNextCursor`
(SyncEngine.cpp lines 91-232).  A DOUBLE element carries the byte
string `std::to_string` would print for it: the claims never inspect
floating-point arithmetic, only the printed bytes. -/

inductive JsonElem where
  | objE (fields : List (List Nat × JsonElem))
  | arrE (xs : List JsonElem)
  | strE (s : List Nat)
  | intE (v : Int)
  | uintE (v : Nat)
  | doubleE (printed : List Nat)
  | boolE (b : Bool)
  | nullE
deriving Repr

/-- `json_utils::escapeJsonString` over bytes. -/
def escapeJsonBytes (value : List Nat) : List Nat :=
  value.flatMap fun c =>
    if c = 34 then [92, 34]
    else if c = 92 then [92, 92]
    else if c = 10 then [92, 110]
    else if c = 13 then [92, 114]
    else if c = 9 then [92, 116]
    else [c]

/-- `appendJsonString`: quote and escape. -/
def serializeStr (s : List Nat) : List Nat := [34] ++ escapeJsonBytes s ++ [34]

/-- Decimal digits of a natural number (`std::to_string`). -/
def natToBytes (n : Nat) : List Nat :=
  if n = 0 then [48] else ((Nat.digits 10 n).reverse.map (fun d => 48 + d))

/-- Decimal text of an `int64_t` (`std::to_string`). -/
def intToBytes (v : Int) : List Nat :=
  if v < 0 then 45 :: natToBytes v.natAbs else natToBytes v.toNat

mutual

/-- `appendJsonValue`: serialize a simdjson element back to JSON text. -/
def serializeJson : JsonElem → List Nat
  | .objE fields => [123] ++ serializeFields fields ++ [125]
  | .arrE xs => [91] ++ serializeElems xs ++ [93]
  | .strE s => serializeStr s
  | .intE v => intToBytes v
  | .uintE v => natToBytes v
  | .doubleE printed => printed
  | .boolE b => if b then ascii "true" else ascii "false"
  | .nullE => ascii "null"

/-- Comma-separated `"key":value` pairs of an object. -/
def serializeFields : List (List Nat × JsonElem) → List Nat
  | [] => []
  | [kv] => serializeStr kv.1 ++ [58] ++ serializeJson kv.2
  | kv :: rest => serializeStr kv.1 ++ [58] ++ serializeJson kv.2 ++ [44] ++ serializeFields rest

/-- Comma-separated array elements. -/
def serializeElems : List JsonElem → List Nat
  | [] => []
  | [x] => serializeJson x
  | x :: rest => serializeJson x ++ [44] ++ serializeElems rest

end

/-- simdjson `obj["next"]`: first field with the given key. -/
def findField (fields : List (List Nat × JsonElem)) (key : List Nat) : Option JsonElem :=
  match fields with
  | [] => none
  | kv :: rest => if kv.1 = key then some kv.2 else findField rest key

def nextKeyBytes : List Nat := ascii "next"

/-- `extractNextCursor`, modelled on the parsed document: returns the
cursor value and the `encoded` flag (`true` for a string `next`, which
is passed through verbatim; `false` otherwise, after serialization),
or `none` when pagination stops. -/
def extractNextCursor (doc : JsonElem) : Option (List Nat × Bool) :=
  match doc with
  | .objE fields =>
    match findField fields nextKeyBytes with
    | none => none
    | some .nullE => none
    | some (.strE s) => if s.isEmpty then none else some (s, true)
    | some v =>
      let json := serializeJson v
      if json.isEmpty then none else some (json, false)
  | _ => none

/-! ## Claim C5: cursor substitution in pull URLs -/

/-- Modelled from the spec's description of the cursor URL mutation
(replace any `cursor=` segment, else append one), as the reference
point for the refinement proof about `buildUrlWithCursor`. -/
def cursorMutationSpec (segs : List (List Nat)) (encCursor : List Nat) : List (List Nat) :=
  if segs.any isCursorPart then
    segs.map (fun p => if isCursorPart p then cursorKeyBytes ++ encCursor else p)
  else segs ++ [cursorKeyBytes ++ encCursor]

theorem isCursorPart_key_append (x : List Nat) :
    isCursorPart (cursorKeyBytes ++ x) = true := by
  simp [isCursorPart, List.isPrefixOf_iff_prefix]

theorem replaceLoop_spec (enc : List Nat) :
    ∀ segs : List (List Nat),
      replaceLoop enc segs =
        (segs.map (fun p => if isCursorPart p then cursorKeyBytes ++ enc else p),
         segs.any isCursorPart) := by
  intro segs
  induction segs with
  | nil => simp [replaceLoop]
  | cons p rest ih =>
    simp only [replaceLoop, ih, List.map_cons, List.any_cons]
    by_cases hc : isCursorPart p <;> simp [hc]

theorem buildUrl_eq_spec (baseUrl cursor : List Nat) (encoded : Bool) :
    buildUrlWithCursor baseUrl cursor encoded =
      baseUrl.takeWhile (fun c => c != 63) ++ [63] ++
        List.intercalate [38]
          (cursorMutationSpec
            (querySegmentsOf
              (baseUrl.drop ((baseUrl.takeWhile (fun c => c != 63)).length + 1)))
            (if encoded then cursor else urlEncode cursor)) := by
  unfold buildUrlWithCursor cursorMutationSpec
  dsimp only
  rw [replaceLoop_spec]
  by_cases hany : (querySegmentsOf
      (baseUrl.drop ((baseUrl.takeWhile (fun c => c != 63)).length + 1))).any isCursorPart = true
  · rw [if_pos hany, if_pos hany]
    have hne : querySegmentsOf
        (baseUrl.drop ((baseUrl.takeWhile (fun c => c != 63)).length + 1)) ≠ [] := by
      intro h
      rw [h] at hany
      simp at hany
    have hemp : ((querySegmentsOf
        (baseUrl.drop ((baseUrl.takeWhile (fun c => c != 63)).length + 1))).map
          (fun p => if isCursorPart p then cursorKeyBytes ++
            (if encoded then cursor else urlEncode cursor) else p)).isEmpty = false := by
      generalize hq : querySegmentsOf
        (baseUrl.drop ((baseUrl.takeWhile (fun c => c != 63)).length + 1)) = q at hne
      cases q with
      | nil => exact absurd rfl hne
      | cons a l => simp
    rw [hemp]
    simp
  · rw [if_neg hany, if_neg hany]
    have hmap : (querySegmentsOf
        (baseUrl.drop ((baseUrl.takeWhile (fun c => c != 63)).length + 1))).map
          (fun p => if isCursorPart p then cursorKeyBytes ++
            (if encoded then cursor else urlEncode cursor) else p) =
        querySegmentsOf
          (baseUrl.drop ((baseUrl.takeWhile (fun c => c != 63)).length + 1)) := by
      have hall : ∀ p ∈ querySegmentsOf
          (baseUrl.drop ((baseUrl.takeWhile (fun c => c != 63)).length + 1)),
          (if isCursorPart p then cursorKeyBytes ++
            (if encoded then cursor else urlEncode cursor) else p) = p := by
        intro p hp
        have hfalse : isCursorPart p = false := by
          by_contra hc
          exact hany (List.any_eq_true.mpr ⟨p, hp, by simpa using hc⟩)
        simp [hfalse]
      calc (querySegmentsOf _).map _ = (querySegmentsOf _).map id := List.map_congr_left hall
        _ = _ := List.map_id _
    rw [hmap]
    have : ((querySegmentsOf
        (baseUrl.drop ((baseUrl.takeWhile (fun c => c != 63)).length + 1))) ++
          [cursorKeyBytes ++ (if encoded then cursor else urlEncode cursor)]).isEmpty = false := by
      simp
    rw [this]
    simp

theorem filter_nonCursor_map (enc : List Nat) :
    ∀ segs : List (List Nat),
      (segs.map (fun p => if isCursorPart p then cursorKeyBytes ++ enc else p)).filter
          (fun p => !isCursorPart p) =
        segs.filter (fun p => !isCursorPart p) := by
  intro segs
  induction segs with
  | nil => simp
  | cons p rest ih =>
    by_cases hc : isCursorPart p = true
    · simp [hc, isCursorPart_key_append, ih]
    · simp only [Bool.not_eq_true] at hc
      simp [hc, ih]

theorem cursorMutationSpec_preserves (segs : List (List Nat)) (enc : List Nat) :
    (cursorMutationSpec segs enc).filter (fun p => !isCursorPart p) =
      segs.filter (fun p => !isCursorPart p) := by
  unfold cursorMutationSpec
  split
  · exact filter_nonCursor_map enc segs
  · rw [List.filter_append]
    simp [isCursorPart_key_append]

theorem cursorMutationSpec_cursor_value (segs : List (List Nat)) (enc : List Nat) :
    ∀ p ∈ cursorMutationSpec segs enc, isCursorPart p = true →
      p = cursorKeyBytes ++ enc := by
  unfold cursorMutationSpec
  split
  · intro p hp hc
    obtain ⟨q, hq, hfq⟩ := List.mem_map.mp hp
    by_cases hqc : isCursorPart q = true
    · rw [if_pos hqc] at hfq
      exact hfq.symm
    · rw [if_neg hqc] at hfq
      subst hfq
      exact absurd hc hqc
  · rename_i hany
    intro p hp hc
    rcases List.mem_append.mp hp with h | h
    · exact absurd (List.any_eq_true.mpr ⟨p, h, by simpa using hc⟩) hany
    · simpa using h

theorem natToBytes_ne_nil (n : Nat) : natToBytes n ≠ [] := by
  unfold natToBytes
  split
  · simp
  · rename_i hn
    simp [Nat.digits_ne_nil_iff_ne_zero, hn]

theorem intToBytes_ne_nil (v : Int) : intToBytes v ≠ [] := by
  unfold intToBytes
  split
  · simp
  · exact natToBytes_ne_nil _

theorem serializeJson_ne_nil (v : JsonElem) (hd : ∀ p, v = .doubleE p → p ≠ []) :
    serializeJson v ≠ [] := by
  cases v with
  | objE fields => simp [serializeJson]
  | arrE xs => simp [serializeJson]
  | strE s => simp [serializeJson, serializeStr]
  | intE v => simpa [serializeJson] using intToBytes_ne_nil v
  | uintE v => simpa [serializeJson] using natToBytes_ne_nil v
  | doubleE printed => simpa [serializeJson] using hd printed rfl
  | boolE b => cases b <;> simp [serializeJson, ascii]
  | nullE => simp [serializeJson, ascii]

/-- Claim C5 (amended): a 2xx body whose top-level `next` is a
non-empty string yields that string verbatim with `encoded = true` (it
is NOT URL-encoded again); an object/array/number/bool `next` is
serialized to JSON and then URL-encoded (`encoded = false`); and
`buildUrlWithCursor` equals the spec's query mutation — it replaces
every `cursor=` segment (appending one if none exists), keeps all
non-`cursor` segments unchanged and in their original order, and every
`cursor=` segment of the result carries exactly the encoded cursor. -/
theorem C5_cursor_pagination :
    (∀ (fields : List (List Nat × JsonElem)) (s : List Nat),
      findField fields nextKeyBytes = some (.strE s) → s ≠ [] →
      extractNextCursor (.objE fields) = some (s, true)) ∧
    (∀ (fields : List (List Nat × JsonElem)) (v : JsonElem),
      findField fields nextKeyBytes = some v →
      (∀ s, v ≠ .strE s) → v ≠ .nullE → (∀ p, v = .doubleE p → p ≠ []) →
      extractNextCursor (.objE fields) = some (serializeJson v, false)) ∧
    (∀ (baseUrl cursor : List Nat) (encoded : Bool),
      buildUrlWithCursor baseUrl cursor encoded =
        baseUrl.takeWhile (fun c => c != 63) ++ [63] ++
          List.intercalate [38]
            (cursorMutationSpec
              (querySegmentsOf (baseUrl.drop ((baseUrl.takeWhile (fun c => c != 63)).length + 1)))
              (if encoded then cursor else urlEncode cursor)) ∧
      (cursorMutationSpec
          (querySegmentsOf (baseUrl.drop ((baseUrl.takeWhile (fun c => c != 63)).length + 1)))
          (if encoded then cursor else urlEncode cursor)).filter (fun p => !isCursorPart p) =
        (querySegmentsOf (baseUrl.drop ((baseUrl.takeWhile (fun c => c != 63)).length + 1))).filter
          (fun p => !isCursorPart p) ∧
      (∀ p ∈ cursorMutationSpec
          (querySegmentsOf (baseUrl.drop ((baseUrl.takeWhile (fun c => c != 63)).length + 1)))
          (if encoded then cursor else urlEncode cursor),
        isCursorPart p = true →
        p = cursorKeyBytes ++ (if encoded then cursor else urlEncode cursor))) := by
  refine ⟨?_, ?_, fun u c e =>
    ⟨buildUrl_eq_spec u c e, cursorMutationSpec_preserves _ _, cursorMutationSpec_cursor_value _ _⟩⟩
  · intro fields s hf hs
    unfold extractNextCursor
    dsimp only
    rw [hf]
    have : s.isEmpty = false := by
      cases s with
      | nil => exact absurd rfl hs
      | cons a l => rfl
    simp [this]
  · intro fields v hf hstr hnull hd
    have hne := serializeJson_ne_nil v hd
    have hemp : (serializeJson v).isEmpty = false := by
      cases hsj : serializeJson v with
      | nil => exact absurd hsj hne
      | cons a l => rfl
    unfold extractNextCursor
    dsimp only
    rw [hf]
    cases v with
    | strE s => exact absurd rfl (hstr s)
    | nullE => exact absurd rfl hnull
    | objE fields' => simp_all
    | arrE xs => simp_all
    | intE n => simp_all
    | uintE n => simp_all
    | doubleE printed => simp_all
    | boolE b => simp_all

/-- Claim C5, counterexample: for `next = "a b"` the cursor is
substituted verbatim — the produced URL carries `cursor=a b`, not the
URL-encoded `cursor=a%20b` the claim requires. -/
theorem C5_counterexample :
    extractNextCursor (.objE [(nextKeyBytes, .strE (ascii "a b"))]) = some (ascii "a b", true) ∧
    buildUrlWithCursor (ascii "https://h/pull?x=1") (ascii "a b") true =
      ascii "https://h/pull?x=1&cursor=a b" ∧
    buildUrlWithCursor (ascii "https://h/pull?x=1") (ascii "a b") true ≠
      ascii "https://h/pull?x=1&cursor=a%20b" :=
  ⟨rfl, by decide, by decide⟩

/-- Witness for `C5_cursor_pagination` on a concrete body and URL. -/
theorem C5_cursor_pagination_witness :
    (findField [(nextKeyBytes, JsonElem.strE (ascii "tok"))] nextKeyBytes =
        some (JsonElem.strE (ascii "tok")) ∧ ascii "tok" ≠ ([] : List Nat)) ∧
    extractNextCursor (.objE [(nextKeyBytes, .strE (ascii "tok"))]) =
      some (ascii "tok", true) :=
  ⟨⟨rfl, by decide⟩, C5_cursor_pagination.1 _ _ rfl (by decide)⟩

/-! ## SyncApplyEngine (SyncApplyEngine.cpp)

The SQLite database is modelled as association lists: per-table column
lists (what `PRAGMA table_info` reports), per-table rows (each row the
bound columns of the `INSERT OR REPLACE` that produced it, keyed by
the `id` binding), and the `local_storage` key/value table.  SQL
statements that only partition work (the ≤ 900-id `DELETE` chunks)
are modelled by their combined effect. -/

/-- `JsonValue` (SyncApplyEngine.cpp lines 22-30).  A `Number` keeps
`numberValue`, the decimal text simdjson conversion produced. -/
inductive JsonValue where
  | nul
  | bool (b : Bool)
  | num (s : String)
  | str (s : String)
  | arr (xs : List JsonValue)
  | obj (fields : List (String × JsonValue))
deriving Repr

/-- `json_utils::escapeJsonString`. -/
def escapeJsonString (value : String) : String :=
  String.mk (value.toList.flatMap fun c =>
    if c = '"' then ['\\', '"']
    else if c = '\\' then ['\\', '\\']
    else if c = '\n' then ['\\', 'n']
    else if c = '\r' then ['\\', 'r']
    else if c = '\t' then ['\\', 't']
    else [c])

mutual

/-- `toJson` (SyncApplyEngine.cpp lines 140-175): serialize a
`JsonValue` back to JSON text (object fields in iteration order). -/
def toJson : JsonValue → String
  | .nul => "null"
  | .bool b => if b then "true" else "false"
  | .num s => s
  | .str s => "\"" ++ escapeJsonString s ++ "\""
  | .arr xs => "[" ++ toJsonElems xs ++ "]"
  | .obj fields => "\x7b" ++ toJsonFields fields ++ "\x7d"

def toJsonElems : List JsonValue → String
  | [] => ""
  | [x] => toJson x
  | x :: rest => toJson x ++ "," ++ toJsonElems rest

def toJsonFields : List (String × JsonValue) → String
  | [] => ""
  | [kv] => "\"" ++ escapeJsonString kv.1 ++ "\":" ++ toJson kv.2
  | kv :: rest =>
    "\"" ++ escapeJsonString kv.1 ++ "\":" ++ toJson kv.2 ++ "," ++ toJsonFields rest

end

/-- A bound SQL value (`bindValue`): NULL, int64, double, or text.  A
double keeps the source numeral text: the claims never compute with
floating point. -/
inductive SqlVal where
  | nul
  | int (v : Int)
  | real (s : String)
  | text (s : String)
deriving Repr, DecidableEq

/-- Digits-only check used to model `std::stoll` on the well-formed
decimal text simdjson produced (optional sign, then digits). -/
def decTextToInt (s : String) : Option Int :=
  match s.toList with
  | [] => none
  | '-' :: ds =>
    if ds ≠ [] ∧ ds.all Char.isDigit then
      some (-(ds.foldl (fun acc d => acc * 10 + (d.toNat - 48)) 0 : Int))
    else none
  | ds =>
    if ds.all Char.isDigit then
      some ((ds.foldl (fun acc d => acc * 10 + (d.toNat - 48)) 0 : Int))
    else none

/-- `bindValue`: null → NULL, bool → 0/1, number → int64 when it has
no `.eE` and fits (otherwise double), string → text, array/object →
serialized JSON text. -/
def bindValue : JsonValue → SqlVal
  | .nul => .nul
  | .bool b => .int (if b then 1 else 0)
  | .num s =>
    if (s.toList.any fun c => c = '.' ∨ c = 'e' ∨ c = 'E') then .real s
    else
      match decTextToInt s with
      | some v => if -(2 ^ 63) ≤ v ∧ v < 2 ^ 63 then .int v else .real s
      | none => .real s
  | .str s => .text s
  | .arr xs => .text (toJson (.arr xs))
  | .obj fields => .text (toJson (.obj fields))

/-- First binding of `k` in an association list. -/
def assocFind {β : Type} (l : List (String × β)) (k : String) : Option β :=
  match l with
  | [] => none
  | kv :: rest => if kv.1 = k then some kv.2 else assocFind rest k

/-- Replace the first binding of `k` (or append one). -/
def assocSet {β : Type} (l : List (String × β)) (k : String) (v : β) :
    List (String × β) :=
  match l with
  | [] => [(k, v)]
  | kv :: rest => if kv.1 = k then (k, v) :: rest else kv :: assocSet rest k v

/-- A stored row: the columns bound by the statement that wrote it. -/
abbrev SqlRow := List (String × SqlVal)

/-- The modelled SQLite database. -/
structure DB where
  schemaVersion : Int
  schema : List (String × List String)
  tables : List (String × List SqlRow)
  localStorage : List (String × String)
deriving Repr

def tableRows (db : DB) (table : String) : List SqlRow :=
  (assocFind db.tables table).getD []

/-- `INSERT OR REPLACE`: drop any row with the same `id` binding,
append the new row. -/
def insertOrReplace (db : DB) (table : String) (record : SqlRow) : DB :=
  { db with
    tables :=
      assocSet db.tables table
        ((tableRows db table).filter
          (fun r => assocFind r "id" ≠ assocFind record "id") ++ [record]) }

/-- The process-wide schema-column cache, keyed by table, storing the
`schema_version` seen at load time.  `forcedReloads` counts
`forceReload = true` loads (observability only). -/
structure SchemaCache where
  entries : List (String × (Int × List String))
  forcedReloads : Nat
deriving Repr

/-- `loadTableColumns`: serve from the cache when the stored
`schema_version` is current and no reload is forced; otherwise read
`PRAGMA table_info` (the `schema` map) and refresh the cache.  An
empty column list is an error and is not cached. -/
def loadTableColumns (db : DB) (cache : SchemaCache) (table : String)
    (forceReload : Bool) : Bool × String × List String × SchemaCache :=
  let cache := if forceReload then { cache with forcedReloads := cache.forcedReloads + 1 }
               else cache
  let fresh :=
    let columns := (assocFind db.schema table).getD []
    if columns.isEmpty then
      (false, "Failed to load table schema for " ++ table, [], cache)
    else
      (true, "", columns,
        { cache with entries := assocSet cache.entries table (db.schemaVersion, columns) })
  if !forceReload then
    match assocFind cache.entries table with
    | some (v, cols) => if v = db.schemaVersion then (true, "", cols, cache) else fresh
    | none => fresh
  else fresh

/-- The code points of a string (the bytes `std::string` holds; the
payload strings the engine compares are ASCII, where the two agree). -/
def strBytes (s : String) : List Nat := s.data.map Char.toNat

/-- Lexicographic `<` on byte sequences: `std::string::operator<`. -/
def bytesLt : List Nat → List Nat → Bool
  | _, [] => false
  | [], _ :: _ => true
  | a :: as, b :: bs =>
    if a < b then true else if b < a then false else bytesLt as bs

/-- `std::string` comparison `a < b`. -/
def strLt (a b : String) : Bool := bytesLt (strBytes a) (strBytes b)

/-- `std::string` comparison `a <= b`. -/
def strLeB (a b : String) : Bool := !(strLt b a)

/-- Ascending insertion of a string into a sorted list (`std::sort`
is modelled by insertion sort; only the sortedness and the membership
are observable). -/
def insertSorted (x : String) : List String → List String
  | [] => [x]
  | y :: ys => if strLeB x y then x :: y :: ys else y :: insertSorted x ys

def sortStrings (l : List String) : List String := l.foldr insertSorted []

/-- The key-filtering and insert part of `applyRowObject`, after the
column set to validate against has been settled. -/
def applyRowCore (db : DB) (cache : SchemaCache) (table : String)
    (fields : List (String × JsonValue)) (cols : List String) :
    Bool × String × DB × SchemaCache :=
  let keys := (fields.map (fun kv => kv.1)).filter (fun k => k ∈ cols)
  if keys.isEmpty then
    (false, "No matching columns for table " ++ table, db, cache)
  else
  let keys := sortStrings keys
  if "id" ∉ cols then
    (false, "Table " ++ table ++ " missing id column", db, cache)
  else if "id" ∉ keys then
    (false, "Row missing id for table " ++ table, db, cache)
  else
    let record := keys.map (fun k => (k, bindValue ((assocFind fields k).getD .nul)))
    (true, "", insertOrReplace db table record, cache)

/-- `applyRowObject`: load the cached column set; a row column absent
from it forces exactly one reload; then filter, validate `id`, and
`INSERT OR REPLACE`. -/
def applyRowObject (db : DB) (cache : SchemaCache) (table : String)
    (rowValue : JsonValue) : Bool × String × DB × SchemaCache :=
  match rowValue with
  | .obj fields =>
    match loadTableColumns db cache table false with
    | (false, msg, _, cache1) => (false, msg, db, cache1)
    | (true, _, cols1, cache1) =>
      let missingCount := ((fields.map (fun kv => kv.1)).filter (fun k => k ∉ cols1)).length
      if missingCount > 0 then
        match loadTableColumns db cache1 table true with
        | (false, msg, _, cache2) => (false, msg, db, cache2)
        | (true, _, cols2, cache2) => applyRowCore db cache2 table fields cols2
      else applyRowCore db cache1 table fields cols1
  | _ => (true, "", db, cache)

/-- `findObjectField`. -/
def findObjectField (fields : List (String × JsonValue)) (key : String) :
    Option JsonValue :=
  assocFind fields key

/-- `readStringField`. -/
def readStringField (fields : List (String × JsonValue)) (key : String) :
    Option String :=
  match findObjectField fields key with
  | some (.str s) => some s
  | _ => none

/-- `readBoolField`. -/
def readBoolField (fields : List (String × JsonValue)) (key : String) :
    Option Bool :=
  match findObjectField fields key with
  | some (.bool b) => some b
  | _ => none

/-- `readStringOrNumberField` (a number yields its decimal text). -/
def readStringOrNumberField (fields : List (String × JsonValue)) (key : String) :
    Option String :=
  match findObjectField fields key with
  | some (.str s) => some s
  | some (.num s) => some s
  | _ => none

/-- `findRowPayload`: the explicit `row` / `record` / `data` field. -/
def findRowPayload (fields : List (String × JsonValue)) : Option JsonValue :=
  match findObjectField fields "row" with
  | some row => some row
  | none =>
    match findObjectField fields "record" with
    | some row => some row
    | none => findObjectField fields "data"

/-- `extractSequenceId`: `sequenceId` / `sequence_id` / `sequence` on
the entry, else on the explicit row payload when it is an object. -/
def extractSequenceId (fields : List (String × JsonValue)) : Option String :=
  match readStringOrNumberField fields "sequenceId" with
  | some s => some s
  | none =>
  match readStringOrNumberField fields "sequence_id" with
  | some s => some s
  | none =>
  match readStringOrNumberField fields "sequence" with
  | some s => some s
  | none =>
  match findRowPayload fields with
  | some (.obj rowFields) =>
    match readStringOrNumberField rowFields "sequenceId" with
    | some s => some s
    | none =>
    match readStringOrNumberField rowFields "sequence_id" with
    | some s => some s
    | none => readStringOrNumberField rowFields "sequence"
  | _ => none

/-- `extractDeleteFlag`: boolean `deleted` / `isDeleted` / `is_deleted`,
else `type` / `op` / `operation` in the recognized operation names. -/
def extractDeleteFlag (fields : List (String × JsonValue)) : Option Bool :=
  match readBoolField fields "deleted" with
  | some b => some b
  | none =>
  match readBoolField fields "isDeleted" with
  | some b => some b
  | none =>
  match readBoolField fields "is_deleted" with
  | some b => some b
  | none =>
  let ty :=
    match readStringField fields "type" with
    | some t => some t
    | none =>
      match readStringField fields "op" with
      | some t => some t
      | none => readStringField fields "operation"
  match ty with
  | some t =>
    if t = "delete" ∨ t = "deleted" then some true
    else if t = "upsert" ∨ t = "insert" ∨ t = "update" then some false
    else none
  | none => none

/-- The reserved entry keys `extractRowFromEntry` strips. -/
def reservedEntryKeys : List String :=
  ["table", "tableName", "deleted", "isDeleted", "is_deleted", "type", "op", "operation"]

/-- `extractRowFromEntry`: the entry object minus the reserved keys. -/
def extractRowFromEntry (fields : List (String × JsonValue)) : JsonValue :=
  .obj (fields.filter (fun kv => kv.1 ∉ reservedEntryKeys))

/-- `extractDeleteId`: `id` from the row payload, else from the entry. -/
def extractDeleteId (fields : List (String × JsonValue)) (row : JsonValue) :
    Option JsonValue :=
  match row with
  | .obj rowFields =>
    match findObjectField rowFields "id" with
    | some idValue => some idValue
    | none => findObjectField fields "id"
  | _ => findObjectField fields "id"

/-- `setLocalStorage`:
`INSERT OR REPLACE INTO local_storage (key, value) VALUES (?, ?)`. -/
def setLocalStorage (db : DB) (key value : String) : DB :=
  { db with localStorage := assocSet db.localStorage key value }

/-- `applyDeletes` for one table: the chunked
`DELETE FROM t WHERE id IN (…)` statements jointly remove every row
whose `id` binding equals one of the bound ids. -/
def applyDeletesTable (db : DB) (table : String) (ids : List JsonValue) : DB :=
  { db with
    tables :=
      assocSet db.tables table
        ((tableRows db table).filter
          (fun r => (ids.map bindValue).all (fun v => assocFind r "id" ≠ some v))) }

/-- Queue a delete id under its table (`deletesByTable[table]`). -/
def queueDelete (deletes : List (String × List JsonValue)) (table : String)
    (idValue : JsonValue) : List (String × List JsonValue) :=
  match assocFind deletes table with
  | some ids => assocSet deletes table (ids ++ [idValue])
  | none => deletes ++ [(table, [idValue])]

/-- The table an entry addresses (`table`, else `tableName`). -/
def entryTable (fields : List (String × JsonValue)) : Option String :=
  match readStringField fields "table" with
  | some t => some t
  | none => readStringField fields "tableName"

/-- The row payload the loop uses (explicit, else synthesized). -/
def entryRow (fields : List (String × JsonValue)) : JsonValue :=
  match findRowPayload fields with
  | some r => r
  | none => extractRowFromEntry fields

/-- In-flight state of the entry loop of `applySyncPayload`. -/
structure ApplyState where
  db : DB
  cache : SchemaCache
  deletes : List (String × List JsonValue)
  maxSequenceId : String

/-- One iteration of the entry loop of `applySyncPayload`.  An error
aborts the loop carrying the message and the (process-wide, not rolled
back) schema cache. -/
def processEntry (st : ApplyState) (entry : JsonValue) :
    Except (String × SchemaCache) ApplyState :=
  match entry with
  | .obj fields =>
    match entryTable fields with
    | none => .error ("Missing table name in row entry", st.cache)
    | some table =>
      let isDeleted := (extractDeleteFlag fields).getD false
      let maxSequenceId :=
        match extractSequenceId fields with
        | some s => if s ≠ "" ∧ strLt st.maxSequenceId s then s else st.maxSequenceId
        | none => st.maxSequenceId
      let row := entryRow fields
      if isDeleted then
        match extractDeleteId fields row with
        | none => .error ("Missing id for delete entry", st.cache)
        | some idValue =>
          .ok { st with deletes := queueDelete st.deletes table idValue,
                        maxSequenceId := maxSequenceId }
      else
        match row with
        | .obj rowFields =>
          match applyRowObject st.db st.cache table (.obj rowFields) with
          | (false, msg, _, cache') => .error (msg, cache')
          | (true, _, db', cache') =>
            .ok { st with db := db', cache := cache', maxSequenceId := maxSequenceId }
        | _ => .error ("Invalid row payload", st.cache)
  | _ => .ok st

/-- The entry loop. -/
def applyEntries (entries : List JsonValue) (st : ApplyState) :
    Except (String × SchemaCache) ApplyState :=
  match entries with
  | [] => .ok st
  | e :: rest =>
    match processEntry st e with
    | .error x => .error x
    | .ok st' => applyEntries rest st'

/-- The per-table delete pass after the entry loop. -/
def processDeletes (db : DB) (groups : List (String × List JsonValue)) : DB :=
  match groups with
  | [] => db
  | (table, ids) :: rest => processDeletes (applyDeletesTable db table ids) rest

/-- `applySyncPayload`, from the parsed JSON document: array root,
`BEGIN IMMEDIATE`, the entry loop, the delete pass, the sequence-id
watermark, `COMMIT` — or `ROLLBACK` (the original database) with the
error message.  Returns (ok, errorMessage, database, schema cache). -/
def applySyncPayload (db : DB) (cache : SchemaCache) (root : JsonValue) :
    Bool × String × DB × SchemaCache :=
  match root with
  | .arr entries =>
    match applyEntries entries ⟨db, cache, [], ""⟩ with
    | .error (msg, cache') => (false, msg, db, cache')
    | .ok st =>
      let db1 := processDeletes st.db st.deletes
      let db2 :=
        if st.maxSequenceId ≠ "" then
          setLocalStorage db1 "__watermelon_last_sequence_id" st.maxSequenceId
        else db1
      (true, "", db2, st.cache)
  | _ => (false, "Invalid JSON root", db, cache)

/-! ## Claim C1 machinery: what the payload promises -/

/-- The `(table, id)` an upsert entry persists, when it is one. -/
def entryUpsertTarget (e : JsonValue) : Option (String × JsonValue) :=
  match e with
  | .obj fields =>
    match entryTable fields with
    | none => none
    | some table =>
      if (extractDeleteFlag fields).getD false then none
      else
        match entryRow fields with
        | .obj rowFields =>
          match assocFind rowFields "id" with
          | some idValue => some (table, idValue)
          | none => none
        | _ => none
  | _ => none

/-- The `(table, id)` a delete entry removes, when it is one. -/
def entryDeleteTarget (e : JsonValue) : Option (String × JsonValue) :=
  match e with
  | .obj fields =>
    match entryTable fields with
    | none => none
    | some table =>
      if (extractDeleteFlag fields).getD false then
        match extractDeleteId fields (entryRow fields) with
        | some idValue => some (table, idValue)
        | none => none
      else none
  | _ => none

def upsertTargets (entries : List JsonValue) : List (String × JsonValue) :=
  entries.filterMap entryUpsertTarget

def deleteTargets (entries : List JsonValue) : List (String × JsonValue) :=
  entries.filterMap entryDeleteTarget

/-- The non-empty sequence ids the loop observes. -/
def entrySeqId (e : JsonValue) : Option String :=
  match e with
  | .obj fields =>
    match extractSequenceId fields with
    | some s => if s ≠ "" then some s else none
    | none => none
  | _ => none

def observedSeqIds (entries : List JsonValue) : List String :=
  entries.filterMap entrySeqId

/-- A row with the given `id` binding exists in the table. -/
def hasRow (db : DB) (table : String) (v : SqlVal) : Prop :=
  ∃ r ∈ tableRows db table, assocFind r "id" = some v

/-! ### Association-list lemmas -/

theorem assocFind_assocSet {β : Type} (l : List (String × β)) (k k' : String) (v : β) :
    assocFind (assocSet l k v) k' = if k' = k then some v else assocFind l k' := by
  induction l with
  | nil =>
    by_cases h : k' = k
    · subst h; simp [assocSet, assocFind]
    · simp [assocSet, assocFind, h, Ne.symm h]
  | cons kv rest ih =>
    by_cases h1 : kv.1 = k
    · by_cases h2 : k' = k
      · subst h2
        simp [assocSet, assocFind, h1]
      · have h3 : kv.1 ≠ k' := h1 ▸ Ne.symm h2
        simp [assocSet, assocFind, h1, h2, h3, Ne.symm h2]
    · by_cases h2 : kv.1 = k'
      · have h3 : ¬ k' = k := fun hh => h1 (h2.trans hh)
        simp [assocSet, assocFind, h1, h2, h3]
      · simp [assocSet, assocFind, h1, h2, ih]

theorem mem_insertSorted (x y : String) (l : List String) :
    y ∈ insertSorted x l ↔ y = x ∨ y ∈ l := by
  induction l with
  | nil => simp [insertSorted]
  | cons a rest ih =>
    simp only [insertSorted]
    split
    · simp
    · simp only [List.mem_cons, ih]
      constructor
      · rintro (h | h | h) <;> simp [h]
      · rintro (h | h | h) <;> simp [h]

theorem mem_sortStrings (x : String) (l : List String) :
    x ∈ sortStrings l ↔ x ∈ l := by
  induction l with
  | nil => simp [sortStrings]
  | cons a rest ih =>
    simp only [sortStrings, List.foldr] at *
    rw [mem_insertSorted]
    simp [ih]

theorem tableRows_insertOrReplace (db : DB) (t' : String) (record : SqlRow) (t : String) :
    tableRows (insertOrReplace db t' record) t =
      if t = t' then
        (tableRows db t').filter (fun r => assocFind r "id" ≠ assocFind record "id") ++ [record]
      else tableRows db t := by
  unfold insertOrReplace tableRows
  simp only [assocFind_assocSet]
  split
  · simp
  · rfl

theorem hasRow_insertOrReplace (db : DB) (t' : String) (record : SqlRow)
    (t : String) (v : SqlVal) (h : hasRow db t v) :
    hasRow (insertOrReplace db t' record) t v := by
  obtain ⟨r, hr, hid⟩ := h
  unfold hasRow
  rw [tableRows_insertOrReplace]
  by_cases ht : t = t'
  · rw [if_pos ht]
    subst ht
    by_cases he : assocFind r "id" = assocFind record "id"
    · refine ⟨record, List.mem_append_right _ (List.mem_singleton.mpr rfl), ?_⟩
      rw [← he, hid]
    · exact ⟨r, List.mem_append_left _ (List.mem_filter.mpr ⟨hr, by simpa using he⟩), hid⟩
  · rw [if_neg ht]
    exact ⟨r, hr, hid⟩

theorem assocFind_mapRecord (f : String → SqlVal) (k : String) :
    ∀ keys : List String, k ∈ keys →
      assocFind (keys.map (fun k' => (k', f k'))) k = some (f k) := by
  intro keys
  induction keys with
  | nil => intro h; cases h
  | cons a rest ih =>
    intro h
    simp only [List.map_cons, assocFind]
    by_cases ha : a = k
    · subst ha; simp
    · rw [if_neg ha]
      exact ih (by rcases List.mem_cons.mp h with h | h; exact absurd h.symm ha; exact h)

theorem assocFind_some_of_mem {β : Type} (l : List (String × β)) (k : String)
    (h : k ∈ l.map (fun kv => kv.1)) : ∃ w, assocFind l k = some w := by
  induction l with
  | nil => cases h
  | cons kv rest ih =>
    simp only [assocFind]
    by_cases hk : kv.1 = k
    · exact ⟨kv.2, by rw [if_pos hk]⟩
    · rw [if_neg hk]
      apply ih
      rcases List.mem_cons.mp h with h | h
      · exact absurd h.symm hk
      · exact h

theorem applyRowCore_ok (db : DB) (cache : SchemaCache) (table : String)
    (fields : List (String × JsonValue)) (cols : List String)
    (m : String) (db' : DB) (c' : SchemaCache)
    (h : applyRowCore db cache table fields cols = (true, m, db', c')) :
    db' = insertOrReplace db table
      ((sortStrings ((fields.map (fun kv => kv.1)).filter (fun k => k ∈ cols))).map
        (fun k => (k, bindValue ((assocFind fields k).getD .nul)))) ∧
    c' = cache ∧
    "id" ∈ (fields.map (fun kv => kv.1)).filter (fun k => k ∈ cols) := by
  unfold applyRowCore at h
  dsimp only at h
  by_cases h1 : ((fields.map (fun kv => kv.1)).filter (fun k => k ∈ cols)).isEmpty = true
  · rw [if_pos h1] at h; cases h
  · rw [if_neg h1] at h
    by_cases h2 : "id" ∉ cols
    · rw [if_pos h2] at h; cases h
    · rw [if_neg h2] at h
      by_cases h3 : "id" ∉ sortStrings ((fields.map (fun kv => kv.1)).filter (fun k => k ∈ cols))
      · rw [if_pos h3] at h; cases h
      · rw [if_neg h3] at h
        simp only [Prod.mk.injEq] at h
        obtain ⟨-, -, hdb, hc⟩ := h
        refine ⟨hdb.symm, hc.symm, ?_⟩
        rw [Decidable.not_not] at h3
        exact (mem_sortStrings _ _).mp h3

theorem applyRowObject_ok_shape (db : DB) (cache : SchemaCache) (table : String)
    (rowValue : JsonValue) (m : String) (db' : DB) (c' : SchemaCache)
    (h : applyRowObject db cache table rowValue = (true, m, db', c')) :
    db' = db ∨ ∃ record, db' = insertOrReplace db table record := by
  cases rowValue with
  | obj fields =>
    unfold applyRowObject at h
    rcases hL : loadTableColumns db cache table false with ⟨b1, m1, cols1, cache1⟩
    rw [hL] at h
    cases b1
    · simp at h
    · dsimp only at h
      split at h
      · rcases hL2 : loadTableColumns db cache1 table true with ⟨b2, m2, cols2, cache2⟩
        rw [hL2] at h
        cases b2
        · simp at h
        · exact Or.inr ⟨_, (applyRowCore_ok _ _ _ _ _ _ _ _ h).1⟩
      · exact Or.inr ⟨_, (applyRowCore_ok _ _ _ _ _ _ _ _ h).1⟩
  | nul => simp only [applyRowObject, Prod.mk.injEq] at h; exact Or.inl h.2.2.1.symm
  | bool b => simp only [applyRowObject, Prod.mk.injEq] at h; exact Or.inl h.2.2.1.symm
  | num s => simp only [applyRowObject, Prod.mk.injEq] at h; exact Or.inl h.2.2.1.symm
  | str s => simp only [applyRowObject, Prod.mk.injEq] at h; exact Or.inl h.2.2.1.symm
  | arr xs => simp only [applyRowObject, Prod.mk.injEq] at h; exact Or.inl h.2.2.1.symm

theorem hasRow_applyRowObject (db : DB) (cache : SchemaCache) (table : String)
    (rowValue : JsonValue) (m : String) (db' : DB) (c' : SchemaCache)
    (h : applyRowObject db cache table rowValue = (true, m, db', c'))
    (t : String) (v : SqlVal) (hv : hasRow db t v) : hasRow db' t v := by
  rcases applyRowObject_ok_shape db cache table rowValue m db' c' h with h' | ⟨record, h'⟩
  · rw [h']; exact hv
  · rw [h']; exact hasRow_insertOrReplace db table record t v hv

theorem applyRowObject_obj_ok (db : DB) (cache : SchemaCache) (table : String)
    (fields : List (String × JsonValue)) (m : String) (db' : DB) (c' : SchemaCache)
    (h : applyRowObject db cache table (.obj fields) = (true, m, db', c')) :
    ∃ w, assocFind fields "id" = some w ∧ hasRow db' table (bindValue w) := by
  have core : ∀ cols cacheX m' c'X,
      applyRowCore db cacheX table fields cols = (true, m', db', c'X) →
      ∃ w, assocFind fields "id" = some w ∧ hasRow db' table (bindValue w) := by
    intro cols cacheX m' c'X hc
    obtain ⟨hdb, -, hidmem⟩ := applyRowCore_ok _ _ _ _ _ _ _ _ hc
    have hidfields : "id" ∈ fields.map (fun kv => kv.1) :=
      (List.mem_filter.mp hidmem).1
    obtain ⟨w, hw⟩ := assocFind_some_of_mem fields "id" hidfields
    refine ⟨w, hw, ?_⟩
    have hidsorted : "id" ∈ sortStrings ((fields.map (fun kv => kv.1)).filter (fun k => k ∈ cols)) :=
      (mem_sortStrings _ _).mpr hidmem
    have hrec := assocFind_mapRecord
      (fun k => bindValue ((assocFind fields k).getD .nul)) "id" _ hidsorted
    rw [hdb]
    refine ⟨(sortStrings ((fields.map (fun kv => kv.1)).filter (fun k => k ∈ cols))).map
      (fun k => (k, bindValue ((assocFind fields k).getD .nul))), ?_, ?_⟩
    · rw [tableRows_insertOrReplace, if_pos rfl]
      exact List.mem_append_right _ (List.mem_singleton.mpr rfl)
    · rw [hrec]
      simp [hw]
  unfold applyRowObject at h
  rcases hL : loadTableColumns db cache table false with ⟨b1, m1, cols1, cache1⟩
  rw [hL] at h
  cases b1
  · simp at h
  · dsimp only at h
    split at h
    · rcases hL2 : loadTableColumns db cache1 table true with ⟨b2, m2, cols2, cache2⟩
      rw [hL2] at h
      cases b2
      · simp at h
      · exact core _ _ _ _ h
    · exact core _ _ _ _ h

theorem hasRow_processEntry (st : ApplyState) (e : JsonValue) (st' : ApplyState)
    (h : processEntry st e = .ok st')
    (t : String) (v : SqlVal) (hv : hasRow st.db t v) : hasRow st'.db t v := by
  cases e with
  | obj fields =>
    unfold processEntry at h
    dsimp only at h
    rcases hT : entryTable fields with _ | table
    · rw [hT] at h; cases h
    · rw [hT] at h
      dsimp only at h
      split at h
      · split at h
        · cases h
        · rename_i idv _
          cases h
          exact hv
      · split at h
        · split at h
          · cases h
          · rename_i heq
            cases h
            exact hasRow_applyRowObject _ _ _ _ _ _ _ heq t v hv
        · cases h
  | nul => cases h; exact hv
  | bool b => cases h; exact hv
  | num s => cases h; exact hv
  | str s => cases h; exact hv
  | arr xs => cases h; exact hv

theorem assocFind_append {β : Type} (l m : List (String × β)) (k : String) :
    assocFind (l ++ m) k =
      match assocFind l k with
      | some v => some v
      | none => assocFind m k := by
  induction l with
  | nil => simp [assocFind]
  | cons kv rest ih =>
    simp only [List.cons_append, assocFind]
    split <;> simp [ih]

theorem assocFind_some_mem {β : Type} (l : List (String × β)) (k : String) (v : β)
    (h : assocFind l k = some v) : (k, v) ∈ l := by
  induction l with
  | nil => cases h
  | cons kv rest ih =>
    unfold assocFind at h
    split at h
    · rename_i heq
      cases h
      rw [← heq]
      simp
    · exact List.mem_cons.mpr (Or.inr (ih h))

theorem assocFind_queueDelete (deletes : List (String × List JsonValue))
    (tbl : String) (x : JsonValue) (t : String) :
    assocFind (queueDelete deletes tbl x) t =
      if t = tbl then some ((assocFind deletes tbl).getD [] ++ [x])
      else assocFind deletes t := by
  unfold queueDelete
  rcases hF : assocFind deletes tbl with _ | ids <;> dsimp only
  · rw [assocFind_append]
    by_cases ht : t = tbl
    · subst ht
      rw [hF]
      dsimp only
      simp [assocFind]
    · rw [if_neg ht]
      rcases h2 : assocFind deletes t with _ | v <;> dsimp only
      have h3 : ¬ tbl = t := fun hh => ht hh.symm
      simp [assocFind, h3]
  · rw [assocFind_assocSet]
    rfl

theorem tableRows_applyDeletesTable (db : DB) (tbl : String) (ids : List JsonValue)
    (t : String) :
    tableRows (applyDeletesTable db tbl ids) t =
      if t = tbl then
        (tableRows db tbl).filter
          (fun r => (ids.map bindValue).all (fun v => assocFind r "id" ≠ some v))
      else tableRows db t := by
  unfold applyDeletesTable tableRows
  simp only [assocFind_assocSet]
  split
  · simp
  · rfl

/-- No row of `table` carries the `id` binding `v`. -/
def noRow (db : DB) (table : String) (v : SqlVal) : Prop :=
  ∀ r ∈ tableRows db table, assocFind r "id" ≠ some v

theorem noRow_applyDeletesTable_preserve (db : DB) (tbl : String) (ids : List JsonValue)
    (t : String) (v : SqlVal) (h : noRow db t v) :
    noRow (applyDeletesTable db tbl ids) t v := by
  intro r hr
  rw [tableRows_applyDeletesTable] at hr
  by_cases ht : t = tbl
  · rw [if_pos ht] at hr
    subst ht
    exact h r (List.mem_filter.mp hr).1
  · rw [if_neg ht] at hr
    exact h r hr

theorem noRow_applyDeletesTable_establish (db : DB) (tbl : String) (ids : List JsonValue)
    (idv : JsonValue) (hin : idv ∈ ids) :
    noRow (applyDeletesTable db tbl ids) tbl (bindValue idv) := by
  intro r hr
  rw [tableRows_applyDeletesTable, if_pos rfl] at hr
  have hall := (List.mem_filter.mp hr).2
  rw [List.all_eq_true] at hall
  have h2 := hall (bindValue idv) (List.mem_map.mpr ⟨idv, hin, rfl⟩)
  simpa using h2

theorem noRow_processDeletes_preserve (groups : List (String × List JsonValue)) :
    ∀ (db : DB) (t : String) (v : SqlVal), noRow db t v →
      noRow (processDeletes db groups) t v := by
  induction groups with
  | nil => intro db t v h; exact h
  | cons g rest ih =>
    intro db t v h
    rw [processDeletes]
    exact ih _ _ _ (noRow_applyDeletesTable_preserve db g.1 g.2 t v h)

theorem noRow_processDeletes_establish (groups : List (String × List JsonValue)) :
    ∀ (db : DB) (tbl : String) (ids : List JsonValue) (idv : JsonValue),
      (tbl, ids) ∈ groups → idv ∈ ids →
      noRow (processDeletes db groups) tbl (bindValue idv) := by
  induction groups with
  | nil => intro db tbl ids idv h; cases h
  | cons g rest ih =>
    intro db tbl ids idv hmem hin
    rw [processDeletes]
    rcases List.mem_cons.mp hmem with h | h
    · cases h
      exact noRow_processDeletes_preserve rest _ _ _
        (noRow_applyDeletesTable_establish db tbl ids idv hin)
    · exact ih _ _ _ _ h hin

theorem hasRow_applyDeletesTable (db : DB) (tbl : String) (ids : List JsonValue)
    (t : String) (v : SqlVal) (h : hasRow db t v)
    (hsafe : t = tbl → ∀ idv ∈ ids, bindValue idv ≠ v) :
    hasRow (applyDeletesTable db tbl ids) t v := by
  obtain ⟨r, hr, hid⟩ := h
  unfold hasRow
  rw [tableRows_applyDeletesTable]
  by_cases ht : t = tbl
  · rw [if_pos ht]
    subst ht
    refine ⟨r, List.mem_filter.mpr ⟨hr, ?_⟩, hid⟩
    rw [List.all_eq_true]
    intro w hw
    obtain ⟨idv, hidv, rfl⟩ := List.mem_map.mp hw
    have hne : bindValue idv ≠ v := hsafe rfl idv hidv
    simp [hid, Ne.symm hne]
  · rw [if_neg ht]
    exact ⟨r, hr, hid⟩

theorem hasRow_processDeletes (groups : List (String × List JsonValue)) :
    ∀ (db : DB) (t : String) (v : SqlVal), hasRow db t v →
      (∀ tbl ids, (tbl, ids) ∈ groups → tbl = t → ∀ idv ∈ ids, bindValue idv ≠ v) →
      hasRow (processDeletes db groups) t v := by
  induction groups with
  | nil => intro db t v h _; exact h
  | cons g rest ih =>
    intro db t v h hsafe
    obtain ⟨tbl0, ids0⟩ := g
    rw [processDeletes]
    apply ih
    · apply hasRow_applyDeletesTable db tbl0 ids0 t v h
      intro ht idv hin
      exact hsafe tbl0 ids0 (List.mem_cons_self _ _) ht.symm idv hin
    · intro tbl ids hmem
      exact hsafe tbl ids (List.mem_cons.mpr (Or.inr hmem))

theorem localStorage_applyDeletesTable (db : DB) (tbl : String) (ids : List JsonValue) :
    (applyDeletesTable db tbl ids).localStorage = db.localStorage := rfl

theorem localStorage_processDeletes (groups : List (String × List JsonValue)) :
    ∀ db : DB, (processDeletes db groups).localStorage = db.localStorage := by
  induction groups with
  | nil => intro db; rfl
  | cons g rest ih =>
    intro db
    obtain ⟨tbl, ids⟩ := g
    rw [processDeletes, ih]
    rfl

theorem tableRows_setLocalStorage (db : DB) (k v : String) (t : String) :
    tableRows (setLocalStorage db k v) t = tableRows db t := rfl

theorem processEntry_upsert (st : ApplyState) (e : JsonValue) (st' : ApplyState)
    (h : processEntry st e = .ok st')
    (tgt : String × JsonValue) (htgt : entryUpsertTarget e = some tgt) :
    hasRow st'.db tgt.1 (bindValue tgt.2) := by
  cases e with
  | obj fields =>
    unfold processEntry at h
    unfold entryUpsertTarget at htgt
    dsimp only at h htgt
    rcases hT : entryTable fields with _ | table
    · rw [hT] at htgt; cases htgt
    · rw [hT] at h htgt
      dsimp only at h htgt
      by_cases hflag : (extractDeleteFlag fields).getD false = true
      · rw [if_pos hflag] at htgt; cases htgt
      · rw [if_neg hflag] at htgt
        rw [if_neg hflag] at h
        split at h
        · rename_i rowFields hrow
          rw [hrow] at htgt
          split at h
          · cases h
          · rename_i heq
            cases h
            dsimp only at htgt
            rcases hid : assocFind rowFields "id" with _ | idv
            · rw [hid] at htgt; cases htgt
            · rw [hid] at htgt
              cases htgt
              obtain ⟨w, hw, hrowdb⟩ := applyRowObject_obj_ok _ _ _ _ _ _ _ heq
              rw [hw] at hid
              cases hid
              exact hrowdb
        · rename_i hnotobj
          cases h
  | nul => cases htgt
  | bool b => cases htgt
  | num s => cases htgt
  | str s => cases htgt
  | arr xs => cases htgt

theorem hasRow_applyEntries (entries : List JsonValue) :
    ∀ (st st' : ApplyState), applyEntries entries st = .ok st' →
      ∀ t v, hasRow st.db t v → hasRow st'.db t v := by
  induction entries with
  | nil =>
    intro st st' h t v hv
    cases h
    exact hv
  | cons e rest ih =>
    intro st st' h t v hv
    unfold applyEntries at h
    rcases hp : processEntry st e with x | st1
    · rw [hp] at h; cases h
    · rw [hp] at h
      exact ih st1 st' h t v (hasRow_processEntry st e st1 hp t v hv)

theorem applyEntries_upserts (entries : List JsonValue) :
    ∀ (st st' : ApplyState), applyEntries entries st = .ok st' →
      ∀ tgt ∈ upsertTargets entries, hasRow st'.db tgt.1 (bindValue tgt.2) := by
  induction entries with
  | nil => intro st st' h tgt htgt; cases htgt
  | cons e rest ih =>
    intro st st' h tgt htgt
    unfold applyEntries at h
    rcases hp : processEntry st e with x | st1
    · rw [hp] at h; cases h
    · rw [hp] at h
      unfold upsertTargets at htgt
      rw [List.filterMap_cons] at htgt
      rcases he : entryUpsertTarget e with _ | tgt0
      · rw [he] at htgt
        exact ih st1 st' h tgt htgt
      · rw [he] at htgt
        rcases List.mem_cons.mp htgt with hh | hh
        · subst hh
          exact hasRow_applyEntries rest st1 st' h tgt.1 (bindValue tgt.2)
            (processEntry_upsert st e st1 hp tgt he)
        · exact ih st1 st' h tgt hh

/-- A delete id is recorded in the queue. -/
def deleteQueued (deletes : List (String × List JsonValue)) (t : String)
    (idv : JsonValue) : Prop :=
  ∃ ids, assocFind deletes t = some ids ∧ idv ∈ ids

theorem deleteQueued_queueDelete (deletes : List (String × List JsonValue))
    (tbl : String) (x : JsonValue) (t : String) (idv : JsonValue) :
    deleteQueued (queueDelete deletes tbl x) t idv ↔
      deleteQueued deletes t idv ∨ (t = tbl ∧ idv = x) := by
  unfold deleteQueued
  rw [assocFind_queueDelete]
  by_cases ht : t = tbl
  · subst ht
    rw [if_pos rfl]
    constructor
    · rintro ⟨ids, hids, hin⟩
      cases hids
      rcases List.mem_append.mp hin with h | h
      · rcases hF : assocFind deletes t with _ | ids0
        · rw [hF] at h; cases h
        · rw [hF] at h
          exact Or.inl ⟨ids0, rfl, h⟩
      · exact Or.inr ⟨rfl, List.mem_singleton.mp h⟩
    · rintro (⟨ids, hids, hin⟩ | ⟨-, rfl⟩)
      · exact ⟨_, rfl, List.mem_append_left _ (by rw [hids]; exact hin)⟩
      · exact ⟨_, rfl, List.mem_append_right _ (List.mem_singleton.mpr rfl)⟩
  · simp only [if_neg ht]
    constructor
    · rintro ⟨ids, hids, hin⟩
      exact Or.inl ⟨ids, hids, hin⟩
    · rintro (⟨ids, hids, hin⟩ | ⟨hh, -⟩)
      · exact ⟨ids, hids, hin⟩
      · exact absurd hh ht

theorem processEntry_deletes (st : ApplyState) (e : JsonValue) (st' : ApplyState)
    (h : processEntry st e = .ok st') (t : String) (idv : JsonValue) :
    deleteQueued st'.deletes t idv ↔
      deleteQueued st.deletes t idv ∨ entryDeleteTarget e = some (t, idv) := by
  cases e with
  | obj fields =>
    unfold processEntry at h
    dsimp only at h
    split at h
    · cases h
    · rename_i table hT
      unfold entryDeleteTarget
      dsimp only
      rw [hT]
      dsimp only
      by_cases hflag : (extractDeleteFlag fields).getD false = true
      · rw [if_pos hflag] at h ⊢
        split at h
        · cases h
        · rename_i idv0 hid0
          rw [hid0]
          cases h
          dsimp only
          rw [deleteQueued_queueDelete]
          constructor
          · rintro (hq | ⟨rfl, rfl⟩)
            · exact Or.inl hq
            · exact Or.inr rfl
          · rintro (hq | heq)
            · exact Or.inl hq
            · injection heq with heq'
              injection heq' with h1 h2
              exact Or.inr ⟨h1.symm, h2.symm⟩
      · rw [if_neg hflag] at h ⊢
        have hside : st'.deletes = st.deletes := by
          split at h
          · split at h
            · cases h
            · cases h; rfl
          · cases h
        rw [hside]
        simp
  | nul => cases h; simp [entryDeleteTarget]
  | bool b => cases h; simp [entryDeleteTarget]
  | num s => cases h; simp [entryDeleteTarget]
  | str s => cases h; simp [entryDeleteTarget]
  | arr xs => cases h; simp [entryDeleteTarget]

theorem applyEntries_deletes (entries : List JsonValue) :
    ∀ (st st' : ApplyState), applyEntries entries st = .ok st' →
      ∀ t idv, deleteQueued st'.deletes t idv ↔
        deleteQueued st.deletes t idv ∨ (t, idv) ∈ deleteTargets entries := by
  induction entries with
  | nil =>
    intro st st' h t idv
    cases h
    simp [deleteTargets]
  | cons e rest ih =>
    intro st st' h t idv
    unfold applyEntries at h
    rcases hp : processEntry st e with x | st1
    · rw [hp] at h; cases h
    · rw [hp] at h
      rw [ih st1 st' h t idv, processEntry_deletes st e st1 hp t idv]
      unfold deleteTargets
      rw [List.filterMap_cons]
      rcases he : entryDeleteTarget e with _ | tgt0 <;> dsimp only
      · simp
      · constructor
        · rintro ((hq | heq) | hmem)
          · exact Or.inl hq
          · injection heq with heq'
            exact Or.inr (List.mem_cons.mpr (Or.inl heq'.symm))
          · exact Or.inr (List.mem_cons.mpr (Or.inr hmem))
        · rintro (hq | hmem)
          · exact Or.inl (Or.inl hq)
          · rcases List.mem_cons.mp hmem with hh | hh
            · exact Or.inl (Or.inr (by rw [hh]))
            · exact Or.inr hh

theorem string_append_ne_empty (s t : String) (h : s ≠ "") : s ++ t ≠ "" := by
  intro he
  apply h
  have hl := congrArg String.length he
  rw [String.length_append] at hl
  have h0 : s.length = 0 := by
    have : String.length "" = 0 := rfl
    omega
  rcases s with ⟨data⟩
  cases data with
  | nil => rfl
  | cons c cs => simp [String.length] at h0

/-- `a` is at most `b` in the `std::string` byte order. -/
def strLe (a b : String) : Prop := strLt b a = false

theorem bytesLt_nil_right (l : List Nat) : bytesLt l [] = false := by
  cases l <;> rfl

theorem bytesLt_irrefl (l : List Nat) : bytesLt l l = false := by
  induction l with
  | nil => rfl
  | cons a as ih =>
    unfold bytesLt
    rw [if_neg (lt_irrefl a), if_neg (lt_irrefl a), ih]

theorem bytesLt_asymm : ∀ (l m : List Nat), bytesLt l m = true → bytesLt m l = false := by
  intro l
  induction l with
  | nil =>
    intro m h
    cases m with
    | nil => cases h
    | cons b bs => exact bytesLt_nil_right _
  | cons a as ih =>
    intro m h
    cases m with
    | nil => rw [bytesLt_nil_right] at h; cases h
    | cons b bs =>
      unfold bytesLt at h ⊢
      by_cases hab : a < b
      · rw [if_neg (by omega : ¬ b < a), if_pos hab]
      · rw [if_neg hab] at h
        by_cases hba : b < a
        · rw [if_pos hba] at h
          cases h
        · rw [if_neg hba] at h
          rw [if_neg hba, if_neg hab]
          exact ih bs h

theorem bytesLt_false_trans : ∀ (l m n : List Nat),
    bytesLt m l = false → bytesLt n m = false → bytesLt n l = false := by
  intro l
  induction l with
  | nil =>
    intro m n h1 h2
    exact bytesLt_nil_right n
  | cons a as ih =>
    intro m n h1 h2
    cases n with
    | nil =>
      cases m with
      | nil => cases h1
      | cons b bs => cases h2
    | cons c cs =>
      cases m with
      | nil => cases h1
      | cons b bs =>
        unfold bytesLt at h1 h2 ⊢
        by_cases hba : b < a
        · rw [if_pos hba] at h1; cases h1
        · rw [if_neg hba] at h1
          by_cases hcb : c < b
          · rw [if_pos hcb] at h2; cases h2
          · rw [if_neg hcb] at h2
            rw [if_neg (by omega : ¬ c < a)]
            by_cases hac : a < c
            · rw [if_pos hac]
            · rw [if_neg hac]
              rw [if_neg (by omega : ¬ a < b)] at h1
              rw [if_neg (by omega : ¬ b < c)] at h2
              exact ih bs cs h1 h2

theorem strLe_refl (a : String) : strLe a a := bytesLt_irrefl _

theorem strLt_true_le (a b : String) (h : strLt a b = true) : strLe a b :=
  bytesLt_asymm _ _ h

theorem strLe_trans (a b c : String) (h1 : strLe a b) (h2 : strLe b c) : strLe a c :=
  bytesLt_false_trans _ _ _ h1 h2

theorem strLt_empty (s : String) (h : s ≠ "") : strLt "" s = true := by
  rcases s with ⟨data⟩
  cases data with
  | nil => exact absurd rfl h
  | cons c cs => rfl

theorem maxSeq_processEntry (st : ApplyState) (e : JsonValue) (st' : ApplyState)
    (h : processEntry st e = .ok st') :
    (st'.maxSequenceId = st.maxSequenceId ∨ entrySeqId e = some st'.maxSequenceId) ∧
    strLe st.maxSequenceId st'.maxSequenceId ∧
    (∀ s, entrySeqId e = some s → strLe s st'.maxSequenceId) := by
  cases e with
  | obj fields =>
    unfold processEntry at h
    unfold entrySeqId
    dsimp only at h ⊢
    split at h
    · cases h
    · rename_i table hT
      have hmax : st'.maxSequenceId =
          (match extractSequenceId fields with
            | some s => if s ≠ "" ∧ strLt st.maxSequenceId s then s else st.maxSequenceId
            | none => st.maxSequenceId) := by
        split at h
        · split at h
          · cases h
          · cases h; rfl
        · split at h
          · split at h
            · cases h
            · cases h; rfl
          · cases h
      rcases hS : extractSequenceId fields with _ | s0
      · rw [hS] at hmax
        dsimp only at hmax
        refine ⟨Or.inl hmax, hmax ▸ strLe_refl _, ?_⟩
        intro s hs
        simp at hs
      · rw [hS] at hmax
        dsimp only at hmax
        by_cases hcond : s0 ≠ "" ∧ strLt st.maxSequenceId s0 = true
        · rw [if_pos hcond] at hmax
          refine ⟨Or.inr ?_, ?_, ?_⟩
          · rw [hmax]
            simp [hcond.1]
          · rw [hmax]
            exact strLt_true_le _ _ hcond.2
          · intro s hs
            simp [hcond.1] at hs
            rw [hmax]
            first
            | exact hs ▸ strLe_refl _
            | exact hs.symm ▸ strLe_refl _
        · rw [if_neg hcond] at hmax
          refine ⟨Or.inl hmax, hmax ▸ strLe_refl _, ?_⟩
          intro s hs
          by_cases hne : s0 = ""
          · simp [hne] at hs
          · simp [hne] at hs
            rw [hmax]
            rcases not_and_or.mp hcond with hc | hc
            · exact absurd hne (by simpa using hc)
            · have hfalse : strLt st.maxSequenceId s0 = false := by
                revert hc
                cases strLt st.maxSequenceId s0 <;> simp
              first
              | exact hs ▸ hfalse
              | exact hs.symm ▸ hfalse
  | nul => cases h; exact ⟨Or.inl rfl, strLe_refl _, fun s hs => by cases hs⟩
  | bool b => cases h; exact ⟨Or.inl rfl, strLe_refl _, fun s hs => by cases hs⟩
  | num s => cases h; exact ⟨Or.inl rfl, strLe_refl _, fun s hs => by cases hs⟩
  | str s => cases h; exact ⟨Or.inl rfl, strLe_refl _, fun s hs => by cases hs⟩
  | arr xs => cases h; exact ⟨Or.inl rfl, strLe_refl _, fun s hs => by cases hs⟩

theorem maxSeq_applyEntries (entries : List JsonValue) :
    ∀ (st st' : ApplyState), applyEntries entries st = .ok st' →
      (st'.maxSequenceId = st.maxSequenceId ∨
        st'.maxSequenceId ∈ observedSeqIds entries) ∧
      strLe st.maxSequenceId st'.maxSequenceId ∧
      (∀ s ∈ observedSeqIds entries, strLe s st'.maxSequenceId) := by
  induction entries with
  | nil =>
    intro st st' h
    cases h
    exact ⟨Or.inl rfl, strLe_refl _, fun s hs => by cases hs⟩
  | cons e rest ih =>
    intro st st' h
    unfold applyEntries at h
    rcases hp : processEntry st e with x | st1
    · rw [hp] at h; cases h
    · rw [hp] at h
      obtain ⟨h1, h2, h3⟩ := maxSeq_processEntry st e st1 hp
      obtain ⟨g1, g2, g3⟩ := ih st1 st' h
      rcases he : entrySeqId e with _ | s0
      · have hobs : observedSeqIds (e :: rest) = observedSeqIds rest := by
          unfold observedSeqIds
          rw [List.filterMap_cons, he]
        rw [hobs]
        refine ⟨?_, strLe_trans _ _ _ h2 g2, g3⟩
        rcases g1 with g1 | g1
        · rw [g1]
          rcases h1 with h1 | h1
          · exact Or.inl h1
          · rw [he] at h1; cases h1
        · exact Or.inr g1
      · have hobs : observedSeqIds (e :: rest) = s0 :: observedSeqIds rest := by
          unfold observedSeqIds
          rw [List.filterMap_cons, he]
        rw [hobs]
        refine ⟨?_, strLe_trans _ _ _ h2 g2, ?_⟩
        · rcases g1 with g1 | g1
          · rw [g1]
            rcases h1 with h1 | h1
            · exact Or.inl h1
            · right
              rw [he] at h1
              injection h1 with h1'
              exact List.mem_cons.mpr (Or.inl h1'.symm)
          · exact Or.inr (List.mem_cons.mpr (Or.inr g1))
        · intro s hs
          rcases List.mem_cons.mp hs with hh | hh
          · subst hh
            first
            | exact strLe_trans _ _ _ (h3 s0 he) g2
            | exact strLe_trans _ _ _ (h3 s he) g2
          · exact g3 s hh

/-! ### Error messages are never empty -/

theorem applyRowCore_error_msg (db : DB) (cache : SchemaCache) (table : String)
    (fields : List (String × JsonValue)) (cols : List String)
    (msg : String) (db' : DB) (c' : SchemaCache)
    (h : applyRowCore db cache table fields cols = (false, msg, db', c')) :
    msg ≠ "" := by
  unfold applyRowCore at h
  dsimp only at h
  split at h
  · obtain ⟨-, rfl, rfl, rfl⟩ := Prod.mk.injEq .. ▸ h
    exact string_append_ne_empty _ _ (by decide)
  · split at h
    · obtain ⟨-, rfl, rfl, rfl⟩ := Prod.mk.injEq .. ▸ h
      exact string_append_ne_empty _ _ (string_append_ne_empty _ _ (by decide))
    · split at h
      · obtain ⟨-, rfl, rfl, rfl⟩ := Prod.mk.injEq .. ▸ h
        exact string_append_ne_empty _ _ (by decide)
      · simp at h

theorem loadTableColumns_error_msg (db : DB) (cache : SchemaCache) (table : String)
    (force : Bool) (msg : String) (cols : List String) (c' : SchemaCache)
    (h : loadTableColumns db cache table force = (false, msg, cols, c')) :
    msg ≠ "" := by
  unfold loadTableColumns at h
  dsimp only at h
  split at h
  · split at h
    · split at h
      · simp at h
      · split at h
        · simp only [Prod.mk.injEq] at h
          rw [← h.2.1]
          exact string_append_ne_empty _ _ (by decide)
        · simp at h
    · split at h
      · obtain ⟨-, rfl, rfl, rfl⟩ := Prod.mk.injEq .. ▸ h
        exact string_append_ne_empty _ _ (by decide)
      · simp at h
  · split at h
    · obtain ⟨-, rfl, rfl, rfl⟩ := Prod.mk.injEq .. ▸ h
      exact string_append_ne_empty _ _ (by decide)
    · simp at h

theorem applyRowObject_error_msg (db : DB) (cache : SchemaCache) (table : String)
    (rowValue : JsonValue) (msg : String) (db' : DB) (c' : SchemaCache)
    (h : applyRowObject db cache table rowValue = (false, msg, db', c')) :
    msg ≠ "" := by
  cases rowValue with
  | obj fields =>
    unfold applyRowObject at h
    rcases hL : loadTableColumns db cache table false with ⟨b1, m1, cols1, cache1⟩
    rw [hL] at h
    cases b1
    · obtain ⟨-, rfl, rfl, rfl⟩ := Prod.mk.injEq .. ▸ h
      exact loadTableColumns_error_msg db cache table false _ cols1 _ hL
    · dsimp only at h
      split at h
      · rcases hL2 : loadTableColumns db cache1 table true with ⟨b2, m2, cols2, cache2⟩
        rw [hL2] at h
        cases b2
        · obtain ⟨-, rfl, rfl, rfl⟩ := Prod.mk.injEq .. ▸ h
          exact loadTableColumns_error_msg db cache1 table true _ cols2 _ hL2
        · exact applyRowCore_error_msg _ _ _ _ _ _ _ _ h
      · exact applyRowCore_error_msg _ _ _ _ _ _ _ _ h
  | nul => simp [applyRowObject] at h
  | bool b => simp [applyRowObject] at h
  | num s => simp [applyRowObject] at h
  | str s => simp [applyRowObject] at h
  | arr xs => simp [applyRowObject] at h

theorem processEntry_error_msg (st : ApplyState) (e : JsonValue)
    (msg : String) (c' : SchemaCache)
    (h : processEntry st e = .error (msg, c')) : msg ≠ "" := by
  cases e with
  | obj fields =>
    unfold processEntry at h
    dsimp only at h
    split at h
    · injection h with h'
      obtain ⟨rfl, rfl⟩ := Prod.mk.injEq .. ▸ h'
      decide
    · split at h
      · split at h
        · injection h with h'
          obtain ⟨rfl, rfl⟩ := Prod.mk.injEq .. ▸ h'
          decide
        · cases h
      · split at h
        · rename_i rowFields heq
          rcases hA : applyRowObject st.db st.cache _ (.obj rowFields) with ⟨bA, mA, dbA, cA⟩
          rw [hA] at h
          cases bA
          · injection h with h'
            obtain ⟨rfl, rfl⟩ := Prod.mk.injEq .. ▸ h'
            exact applyRowObject_error_msg _ _ _ _ _ _ _ hA
          · cases h
        · injection h with h'
          obtain ⟨rfl, rfl⟩ := Prod.mk.injEq .. ▸ h'
          decide
  | nul => cases h
  | bool b => cases h
  | num s => cases h
  | str s => cases h
  | arr xs => cases h

theorem applyEntries_error_msg (entries : List JsonValue) :
    ∀ (st : ApplyState) (msg : String) (c' : SchemaCache),
      applyEntries entries st = .error (msg, c') → msg ≠ "" := by
  induction entries with
  | nil => intro st msg c' h; cases h
  | cons e rest ih =>
    intro st msg c' h
    unfold applyEntries at h
    rcases hp : processEntry st e with ⟨m0, c0⟩ | st1
    · rw [hp] at h
      injection h with h'
      obtain ⟨rfl, rfl⟩ := Prod.mk.injEq .. ▸ h'
      exact processEntry_error_msg st e _ _ hp
    · rw [hp] at h
      exact ih st1 msg c' h

/-! ### Every id in the final delete queue is a delete target -/

/-- The id is recorded, under the table, somewhere in the queue. -/
def memDelete (deletes : List (String × List JsonValue)) (t : String)
    (idv : JsonValue) : Prop :=
  ∃ ids, (t, ids) ∈ deletes ∧ idv ∈ ids

theorem assocSet_mem_sub {β : Type} (l : List (String × β)) (k : String) (v : β)
    (a : String) (b : β) (h : (a, b) ∈ assocSet l k v) :
    (a, b) ∈ l ∨ (a = k ∧ b = v) := by
  induction l with
  | nil =>
    rw [assocSet] at h
    rcases List.mem_singleton.mp h with h'
    injection h' with h1 h2
    exact Or.inr ⟨h1, h2⟩
  | cons kv rest ih =>
    rw [assocSet] at h
    split at h
    · rcases List.mem_cons.mp h with h' | h'
      · injection h' with h1 h2
        exact Or.inr ⟨h1, h2⟩
      · exact Or.inl (List.mem_cons.mpr (Or.inr h'))
    · rcases List.mem_cons.mp h with h' | h'
      · exact Or.inl (List.mem_cons.mpr (Or.inl h'))
      · rcases ih h' with h'' | h''
        · exact Or.inl (List.mem_cons.mpr (Or.inr h''))
        · exact Or.inr h''

theorem queueDelete_mem_sub (d : List (String × List JsonValue)) (tbl : String)
    (x : JsonValue) (a : String) (idv : JsonValue)
    (h : memDelete (queueDelete d tbl x) a idv) :
    memDelete d a idv ∨ (a = tbl ∧ idv = x) := by
  obtain ⟨ids, hmem, hin⟩ := h
  unfold queueDelete at hmem
  rcases hF : assocFind d tbl with _ | ids0
  · rw [hF] at hmem
    rcases List.mem_append.mp hmem with h' | h'
    · exact Or.inl ⟨ids, h', hin⟩
    · rcases List.mem_singleton.mp h' with h''
      injection h'' with h1 h2
      subst h1
      subst h2
      exact Or.inr ⟨rfl, List.mem_singleton.mp hin⟩
  · rw [hF] at hmem
    rcases assocSet_mem_sub d tbl (ids0 ++ [x]) a ids hmem with h' | ⟨h1, h2⟩
    · exact Or.inl ⟨ids, h', hin⟩
    · subst h1
      subst h2
      rcases List.mem_append.mp hin with h' | h'
      · exact Or.inl ⟨ids0, assocFind_some_mem d a ids0 hF, h'⟩
      · exact Or.inr ⟨rfl, List.mem_singleton.mp h'⟩

theorem processEntry_memDelete_sub (st : ApplyState) (e : JsonValue)
    (st' : ApplyState) (h : processEntry st e = .ok st')
    (t : String) (idv : JsonValue) (hd : memDelete st'.deletes t idv) :
    memDelete st.deletes t idv ∨ entryDeleteTarget e = some (t, idv) := by
  cases e with
  | obj fields =>
    unfold processEntry at h
    dsimp only at h
    split at h
    · cases h
    · rename_i table hT
      unfold entryDeleteTarget
      dsimp only
      rw [hT]
      dsimp only
      by_cases hflag : (extractDeleteFlag fields).getD false = true
      · rw [if_pos hflag] at h ⊢
        split at h
        · cases h
        · rename_i idv0 hid0
          rw [hid0]
          cases h
          dsimp only at hd
          rcases queueDelete_mem_sub st.deletes table idv0 t idv hd with h' | ⟨h1, h2⟩
          · exact Or.inl h'
          · subst h1
            subst h2
            exact Or.inr rfl
      · rw [if_neg hflag] at h
        have hside : st'.deletes = st.deletes := by
          split at h
          · split at h
            · cases h
            · cases h; rfl
          · cases h
        rw [hside] at hd
        exact Or.inl hd
  | nul => cases h; exact Or.inl hd
  | bool b => cases h; exact Or.inl hd
  | num s => cases h; exact Or.inl hd
  | str s => cases h; exact Or.inl hd
  | arr xs => cases h; exact Or.inl hd

theorem applyEntries_memDelete_sub (entries : List JsonValue) :
    ∀ (st st' : ApplyState), applyEntries entries st = .ok st' →
      ∀ t idv, memDelete st'.deletes t idv →
        memDelete st.deletes t idv ∨ (t, idv) ∈ deleteTargets entries := by
  induction entries with
  | nil =>
    intro st st' h t idv hd
    cases h
    exact Or.inl hd
  | cons e rest ih =>
    intro st st' h t idv hd
    unfold applyEntries at h
    rcases hp : processEntry st e with x | st1
    · rw [hp] at h; cases h
    · rw [hp] at h
      unfold deleteTargets
      rw [List.filterMap_cons]
      rcases ih st1 st' h t idv hd with h' | h'
      · rcases processEntry_memDelete_sub st e st1 hp t idv h' with h'' | h''
        · exact Or.inl h''
        · rw [h'']
          exact Or.inr (List.mem_cons_self _ _)
      · rcases he : entryDeleteTarget e with _ | tgt0
        · exact Or.inr h'
        · exact Or.inr (List.mem_cons.mpr (Or.inr h'))

/-! ### Sequence ids the loop observes are nonempty -/

theorem entrySeqId_ne_empty (e : JsonValue) (s : String)
    (h : entrySeqId e = some s) : s ≠ "" := by
  cases e with
  | obj fields =>
    unfold entrySeqId at h
    dsimp only at h
    rcases hS : extractSequenceId fields with _ | s0
    · rw [hS] at h; cases h
    · rw [hS] at h
      dsimp only at h
      split at h
      · rename_i hc
        injection h with h'
        subst h'
        exact hc
      · cases h
  | nul => cases h
  | bool b => cases h
  | num s0 => cases h
  | str s0 => cases h
  | arr xs => cases h

theorem observedSeqIds_ne_empty (entries : List JsonValue) (s : String)
    (h : s ∈ observedSeqIds entries) : s ≠ "" := by
  unfold observedSeqIds at h
  obtain ⟨e, -, he⟩ := List.mem_filterMap.mp h
  exact entrySeqId_ne_empty e s he

/-! ## Claim C1: atomicity of `applySyncPayload` -/

/-- C1: for every payload handed to `applySyncPayload`, either the call
returns `true` and every upsert row in the payload is persisted (unless
the payload itself also deletes that id — the delete pass runs last),
every delete is persisted, and, when at least one non-empty sequence id
was observed, `local_storage.__watermelon_last_sequence_id` holds the
byte-lexicographic maximum of the observed sequence ids; or the call
returns `false` with a non-empty error message and the database is the
original, unchanged one (`ROLLBACK`); a non-array JSON root returns
`false` with `"Invalid JSON root"` and the unchanged database. -/
theorem C1_apply_atomicity (db : DB) (cache : SchemaCache) (root : JsonValue)
    (ok : Bool) (msg : String) (db' : DB) (cache' : SchemaCache)
    (h : applySyncPayload db cache root = (ok, msg, db', cache')) :
    (ok = false → msg ≠ "" ∧ db' = db) ∧
    ((∀ entries, root ≠ .arr entries) →
      ok = false ∧ msg = "Invalid JSON root" ∧ db' = db) ∧
    (∀ entries, root = .arr entries → ok = true →
      (∀ tgt ∈ upsertTargets entries,
        (∀ idv, (tgt.1, idv) ∈ deleteTargets entries →
          bindValue idv ≠ bindValue tgt.2) →
        hasRow db' tgt.1 (bindValue tgt.2)) ∧
      (∀ tgt ∈ deleteTargets entries, noRow db' tgt.1 (bindValue tgt.2)) ∧
      (observedSeqIds entries ≠ [] →
        ∃ m, assocFind db'.localStorage "__watermelon_last_sequence_id" = some m ∧
          m ∈ observedSeqIds entries ∧ ∀ s ∈ observedSeqIds entries, strLe s m)) := by
  cases root with
  | arr entries0 =>
    unfold applySyncPayload at h
    dsimp only at h
    rcases hA : applyEntries entries0 ⟨db, cache, [], ""⟩ with ⟨m0, c0⟩ | st
    · rw [hA] at h
      obtain ⟨rfl, rfl, rfl, rfl⟩ := Prod.mk.injEq .. ▸ h
      refine ⟨fun _ => ⟨applyEntries_error_msg entries0 _ _ _ hA, rfl⟩, ?_, ?_⟩
      · intro hne
        exact absurd rfl (hne entries0)
      · intro entries heq hok
        cases hok
    · rw [hA] at h
      dsimp only at h
      obtain ⟨rfl, rfl, rfl, rfl⟩ := Prod.mk.injEq .. ▸ h
      refine ⟨?g1, ?g2, ?g3⟩
      case g1 => exact fun hfalse => by cases hfalse
      · intro hne
        exact absurd rfl (hne entries0)
      · intro entries heq hok
        injection heq with heq'
        subst heq'
        have hinitDel : ∀ t idv, ¬ memDelete ([] : List (String × List JsonValue)) t idv := by
          rintro t idv ⟨ids, hmem, -⟩
          cases hmem
        have hinitQ : ∀ t idv, ¬ deleteQueued ([] : List (String × List JsonValue)) t idv := by
          rintro t idv ⟨ids, hfind, -⟩
          cases hfind
        refine ⟨?_, ?_, ?_⟩
        · intro tgt htgt hsafe
          have hrow : hasRow st.db tgt.1 (bindValue tgt.2) :=
            applyEntries_upserts entries0 _ _ hA tgt htgt
          have hsafe' : ∀ tbl ids, (tbl, ids) ∈ st.deletes → tbl = tgt.1 →
              ∀ idv ∈ ids, bindValue idv ≠ bindValue tgt.2 := by
            intro tbl ids hmem htbl idv hin
            have hmd : memDelete st.deletes tbl idv := ⟨ids, hmem, hin⟩
            rcases applyEntries_memDelete_sub entries0 _ _ hA tbl idv hmd with h' | h'
            · exact absurd h' (hinitDel tbl idv)
            · subst htbl
              exact hsafe idv h'
          have hrow1 : hasRow (processDeletes st.db st.deletes) tgt.1 (bindValue tgt.2) :=
            hasRow_processDeletes st.deletes st.db tgt.1 (bindValue tgt.2) hrow hsafe'
          by_cases hw : st.maxSequenceId ≠ ""
          · rw [if_pos hw]
            exact hrow1
          · rw [if_neg hw]
            exact hrow1
        · intro tgt htgt
          have hq : deleteQueued st.deletes tgt.1 tgt.2 :=
            (applyEntries_deletes entries0 _ _ hA tgt.1 tgt.2).mpr
              (Or.inr (by rwa [Prod.mk.eta]))
          obtain ⟨ids, hfind, hin⟩ := hq
          have hmem : (tgt.1, ids) ∈ st.deletes := assocFind_some_mem _ _ _ hfind
          have hno : noRow (processDeletes st.db st.deletes) tgt.1 (bindValue tgt.2) :=
            noRow_processDeletes_establish st.deletes st.db tgt.1 ids tgt.2 hmem hin
          by_cases hw : st.maxSequenceId ≠ ""
          · rw [if_pos hw]
            exact hno
          · rw [if_neg hw]
            exact hno
        · intro hobs
          obtain ⟨s0, hs0⟩ := List.exists_mem_of_ne_nil _ hobs
          obtain ⟨hor, -, hub⟩ := maxSeq_applyEntries entries0 _ _ hA
          have hs0ne : s0 ≠ "" := observedSeqIds_ne_empty entries0 s0 hs0
          have hwne : st.maxSequenceId ≠ "" := by
            intro heq
            have hle := hub s0 hs0
            rw [strLe, heq, strLt_empty s0 hs0ne] at hle
            cases hle
          rw [if_pos hwne]
          refine ⟨st.maxSequenceId, ?_, ?_, hub⟩
          · show assocFind (assocSet (processDeletes st.db st.deletes).localStorage
              "__watermelon_last_sequence_id" st.maxSequenceId)
              "__watermelon_last_sequence_id" = some st.maxSequenceId
            rw [assocFind_assocSet]
            simp
          · rcases hor with hor | hor
            · exact absurd hor hwne
            · exact hor
  | nul =>
    obtain ⟨rfl, rfl, rfl, rfl⟩ := Prod.mk.injEq .. ▸ h
    exact ⟨fun _ => ⟨by decide, rfl⟩, fun _ => ⟨rfl, rfl, rfl⟩, fun entries heq => by cases heq⟩
  | bool b =>
    obtain ⟨rfl, rfl, rfl, rfl⟩ := Prod.mk.injEq .. ▸ h
    exact ⟨fun _ => ⟨by decide, rfl⟩, fun _ => ⟨rfl, rfl, rfl⟩, fun entries heq => by cases heq⟩
  | num s =>
    obtain ⟨rfl, rfl, rfl, rfl⟩ := Prod.mk.injEq .. ▸ h
    exact ⟨fun _ => ⟨by decide, rfl⟩, fun _ => ⟨rfl, rfl, rfl⟩, fun entries heq => by cases heq⟩
  | str s =>
    obtain ⟨rfl, rfl, rfl, rfl⟩ := Prod.mk.injEq .. ▸ h
    exact ⟨fun _ => ⟨by decide, rfl⟩, fun _ => ⟨rfl, rfl, rfl⟩, fun entries heq => by cases heq⟩
  | obj fields =>
    obtain ⟨rfl, rfl, rfl, rfl⟩ := Prod.mk.injEq .. ▸ h
    exact ⟨fun _ => ⟨by decide, rfl⟩, fun _ => ⟨rfl, rfl, rfl⟩, fun entries heq => by cases heq⟩

/-- Concrete database: one table `tasks(id, name)`, schema version 1. -/
def C1db0 : DB := ⟨1, [("tasks", ["id", "name"])], [], []⟩

def C1cache0 : SchemaCache := ⟨[], 0⟩

/-- A payload with one upsert (id `a`, sequence id `5`) and one delete
(id `b`, sequence id `7`). -/
def C1entries : List JsonValue :=
  [ .obj [("table", .str "tasks"),
          ("row", .obj [("id", .str "a"), ("name", .str "alpha")]),
          ("sequenceId", .str "5")],
    .obj [("table", .str "tasks"), ("deleted", .bool true),
          ("id", .str "b"), ("sequence_id", .str "7")] ]

theorem C1_apply_atomicity_witness :
    hasRow (applySyncPayload C1db0 C1cache0 (.arr C1entries)).2.2.1 "tasks"
        (bindValue (.str "a")) ∧
    noRow (applySyncPayload C1db0 C1cache0 (.arr C1entries)).2.2.1 "tasks"
        (bindValue (.str "b")) ∧
    ∃ m, assocFind (applySyncPayload C1db0 C1cache0 (.arr C1entries)).2.2.1.localStorage
        "__watermelon_last_sequence_id" = some m ∧
      m ∈ observedSeqIds C1entries ∧ ∀ s ∈ observedSeqIds C1entries, strLe s m := by
  have h := C1_apply_atomicity C1db0 C1cache0 (.arr C1entries)
      (applySyncPayload C1db0 C1cache0 (.arr C1entries)).1
      (applySyncPayload C1db0 C1cache0 (.arr C1entries)).2.1
      (applySyncPayload C1db0 C1cache0 (.arr C1entries)).2.2.1
      (applySyncPayload C1db0 C1cache0 (.arr C1entries)).2.2.2 rfl
  have hok : (applySyncPayload C1db0 C1cache0 (.arr C1entries)).1 = true := by rfl
  have h3 := h.2.2 C1entries rfl hok
  refine ⟨?_, ?_, ?_⟩
  · apply h3.1 ("tasks", JsonValue.str "a")
    · rw [show upsertTargets C1entries = [("tasks", JsonValue.str "a")] from rfl]
      exact List.mem_cons_self _ _
    · intro idv hm
      rw [show deleteTargets C1entries = [("tasks", JsonValue.str "b")] from rfl] at hm
      have hm' := List.mem_singleton.mp hm
      injection hm' with h1 h2
      subst h2
      decide
  · apply h3.2.1 ("tasks", JsonValue.str "b")
    rw [show deleteTargets C1entries = [("tasks", JsonValue.str "b")] from rfl]
    exact List.mem_cons_self _ _
  · apply h3.2.2
    rw [show observedSeqIds C1entries = ["5", "7"] from rfl]
    exact List.cons_ne_nil _ _

/-! ## Claim C2: unknown columns force one reload, then are dropped -/

theorem loadTableColumns_forcedReloads (db : DB) (cache : SchemaCache)
    (table : String) (force : Bool) :
    (loadTableColumns db cache table force).2.2.2.forcedReloads =
      cache.forcedReloads + (if force then 1 else 0) := by
  cases force
  · rcases hF : assocFind cache.entries table with _ | ⟨v, cols0⟩
    · by_cases hE : ((assocFind db.schema table).getD []).isEmpty
      · simp [loadTableColumns, hF, hE]
      · simp [loadTableColumns, hF, hE]
    · by_cases hv : v = db.schemaVersion
      · simp [loadTableColumns, hF, hv]
      · by_cases hE : ((assocFind db.schema table).getD []).isEmpty
        · simp [loadTableColumns, hF, hv, hE]
        · simp [loadTableColumns, hF, hv, hE]
  · by_cases hE : ((assocFind db.schema table).getD []).isEmpty
    · simp [loadTableColumns, hE]
    · simp [loadTableColumns, hE]

theorem applyRowCore_cache (db : DB) (cache : SchemaCache) (table : String)
    (fields : List (String × JsonValue)) (cols : List String)
    (ok : Bool) (m : String) (db' : DB) (c' : SchemaCache)
    (h : applyRowCore db cache table fields cols = (ok, m, db', c')) :
    c' = cache := by
  unfold applyRowCore at h
  dsimp only at h
  split at h
  · obtain ⟨-, -, -, rfl⟩ := Prod.mk.injEq .. ▸ h
    rfl
  · split at h
    · obtain ⟨-, -, -, rfl⟩ := Prod.mk.injEq .. ▸ h
      rfl
    · split at h
      · obtain ⟨-, -, -, rfl⟩ := Prod.mk.injEq .. ▸ h
        rfl
      · obtain ⟨-, -, -, rfl⟩ := Prod.mk.injEq .. ▸ h
        rfl

theorem applyRowCore_false_iff (db : DB) (cache : SchemaCache) (table : String)
    (fields : List (String × JsonValue)) (cols : List String)
    (ok : Bool) (m : String) (db' : DB) (c' : SchemaCache)
    (h : applyRowCore db cache table fields cols = (ok, m, db', c')) :
    ok = false ↔
      ((fields.map (fun kv => kv.1)).filter (fun k => k ∈ cols) = [] ∨
       "id" ∉ cols ∨ "id" ∉ fields.map (fun kv => kv.1)) := by
  unfold applyRowCore at h
  dsimp only at h
  split at h
  · rename_i hempty
    obtain ⟨rfl, -, -, -⟩ := Prod.mk.injEq .. ▸ h
    rw [List.isEmpty_iff] at hempty
    exact iff_of_true rfl (Or.inl hempty)
  · rename_i hempty
    split at h
    · rename_i hidc
      obtain ⟨rfl, -, -, -⟩ := Prod.mk.injEq .. ▸ h
      exact iff_of_true rfl (Or.inr (Or.inl hidc))
    · rename_i hidc
      split at h
      · rename_i hidk
        obtain ⟨rfl, -, -, -⟩ := Prod.mk.injEq .. ▸ h
        refine iff_of_true rfl (Or.inr (Or.inr ?_))
        intro hmem
        apply hidk
        rw [mem_sortStrings]
        refine List.mem_filter.mpr ⟨hmem, ?_⟩
        simp only [decide_eq_true_eq]
        exact not_not.mp hidc
      · rename_i hidk
        obtain ⟨rfl, -, -, -⟩ := Prod.mk.injEq .. ▸ h
        refine iff_of_false (fun hq => by cases hq) ?_
        rintro (hA | hB | hC)
        · exact hempty (by rw [hA]; rfl)
        · exact hidc hB
        · have hin := not_not.mp hidk
          rw [mem_sortStrings] at hin
          exact hC (List.mem_filter.mp hin).1

/-- C2: a row column absent from the cached column set forces exactly one
schema reload (the returned cache counts one more forced reload); but a
column still unknown after the reload is NOT an error: `applyRowObject`
fails only when the row has no column of the reloaded set, the set lacks
`id`, or the row lacks `id`; otherwise it succeeds, inserting exactly the
row columns that are in the reloaded set and silently dropping the rest. -/
theorem C2_unknown_column_reload (db : DB) (cache : SchemaCache) (table : String)
    (fields : List (String × JsonValue)) (ok : Bool) (msg : String)
    (db' : DB) (cache' : SchemaCache) (m1 : String)
    (cols1 : List String) (cache1 : SchemaCache)
    (h : applyRowObject db cache table (.obj fields) = (ok, msg, db', cache'))
    (hL : loadTableColumns db cache table false = (true, m1, cols1, cache1))
    (hmiss : (fields.map (fun kv => kv.1)).filter (fun k => k ∉ cols1) ≠ []) :
    cache'.forcedReloads = cache.forcedReloads + 1 ∧
    ∀ b2 m2 cols2 cache2,
      loadTableColumns db cache1 table true = (b2, m2, cols2, cache2) →
      b2 = true →
      (ok = false ↔
        ((fields.map (fun kv => kv.1)).filter (fun k => k ∈ cols2) = [] ∨
         "id" ∉ cols2 ∨ "id" ∉ fields.map (fun kv => kv.1))) ∧
      (ok = true → db' = insertOrReplace db table
        ((sortStrings ((fields.map (fun kv => kv.1)).filter (fun k => k ∈ cols2))).map
          (fun k => (k, bindValue ((assocFind fields k).getD .nul))))) := by
  have hfr1 : cache1.forcedReloads = cache.forcedReloads := by
    have := loadTableColumns_forcedReloads db cache table false
    rw [hL] at this
    simpa using this
  unfold applyRowObject at h
  rw [hL] at h
  dsimp only at h
  rw [if_pos (by
    simpa using List.length_pos.mpr hmiss)] at h
  rcases hL2 : loadTableColumns db cache1 table true with ⟨b2, m2, cols2, cache2⟩
  have hfr2 : cache2.forcedReloads = cache1.forcedReloads + 1 := by
    have := loadTableColumns_forcedReloads db cache1 table true
    rw [hL2] at this
    simpa using this
  rw [hL2] at h
  cases b2
  · obtain ⟨rfl, rfl, rfl, rfl⟩ := Prod.mk.injEq .. ▸ h
    refine ⟨by rw [hfr2, hfr1], ?_⟩
    intro b2' m2' cols2' cache2' hL2' hb2
    obtain ⟨h1, -, -, -⟩ := Prod.mk.injEq .. ▸ hL2'
    rw [← h1] at hb2
    cases hb2
  · have hcc : cache' = cache2 := applyRowCore_cache _ _ _ _ _ _ _ _ _ h
    refine ⟨by rw [hcc, hfr2, hfr1], ?_⟩
    intro b2' m2' cols2' cache2' hL2' hb2
    obtain ⟨-, -, rfl, -⟩ := Prod.mk.injEq .. ▸ hL2'
    refine ⟨applyRowCore_false_iff _ _ _ _ _ _ _ _ _ h, ?_⟩
    intro hok
    subst hok
    exact (applyRowCore_ok _ _ _ _ _ _ _ _ h).1

def C2db0 : DB := ⟨1, [("tasks", ["id", "name"])], [], []⟩

/-- A warm cache for `tasks` at the current schema version. -/
def C2cache0 : SchemaCache := ⟨[("tasks", (1, ["id", "name"]))], 0⟩

/-- A row with a column (`bogus`) the table does not have. -/
def C2row : List (String × JsonValue) := [("id", .str "x"), ("bogus", .str "y")]

/-- The spec says a column still unknown after the forced reload is an
error and rolls the transaction back; in the code the reload result is
never re-checked: the row still contains `bogus`, which the reloaded
column set lacks, yet `applyRowObject` succeeds (one forced reload is
counted, and `bogus` is silently dropped). -/
theorem C2_counterexample :
    (applyRowObject C2db0 C2cache0 "tasks" (.obj C2row)).1 = true ∧
    (applyRowObject C2db0 C2cache0 "tasks" (.obj C2row)).2.2.2.forcedReloads = 1 ∧
    (loadTableColumns C2db0 C2cache0 "tasks" true).2.2.1 = ["id", "name"] ∧
    (C2row.map (fun kv => kv.1)).filter (fun k => k ∉ ["id", "name"]) = ["bogus"] :=
  ⟨rfl, rfl, rfl, by decide⟩

theorem C2_unknown_column_reload_witness :
    (applyRowObject C2db0 C2cache0 "tasks" (.obj C2row)).2.2.2.forcedReloads =
      C2cache0.forcedReloads + 1 ∧
    ∀ b2 m2 cols2 cache2,
      loadTableColumns C2db0 C2cache0 "tasks" true = (b2, m2, cols2, cache2) →
      b2 = true →
      ((applyRowObject C2db0 C2cache0 "tasks" (.obj C2row)).1 = false ↔
        ((C2row.map (fun kv => kv.1)).filter (fun k => k ∈ cols2) = [] ∨
         "id" ∉ cols2 ∨ "id" ∉ C2row.map (fun kv => kv.1))) ∧
      ((applyRowObject C2db0 C2cache0 "tasks" (.obj C2row)).1 = true →
        (applyRowObject C2db0 C2cache0 "tasks" (.obj C2row)).2.2.1 =
          insertOrReplace C2db0 "tasks"
            ((sortStrings ((C2row.map (fun kv => kv.1)).filter (fun k => k ∈ cols2))).map
              (fun k => (k, bindValue ((assocFind C2row k).getD .nul))))) :=
  C2_unknown_column_reload C2db0 C2cache0 "tasks" C2row
    (applyRowObject C2db0 C2cache0 "tasks" (.obj C2row)).1
    (applyRowObject C2db0 C2cache0 "tasks" (.obj C2row)).2.1
    (applyRowObject C2db0 C2cache0 "tasks" (.obj C2row)).2.2.1
    (applyRowObject C2db0 C2cache0 "tasks" (.obj C2row)).2.2.2
    "" ["id", "name"] C2cache0 rfl rfl (by decide)

/-! ## Claim C10: non-object array entries are silently skipped -/

/-- Whether an array element is a JSON object (`element.is_object()`). -/
def isObjEntry : JsonValue → Bool
  | .obj _ => true
  | _ => false

theorem processEntry_nonObj (st : ApplyState) (e : JsonValue)
    (h : isObjEntry e = false) : processEntry st e = .ok st := by
  cases e with
  | obj fields => cases h
  | nul => rfl
  | bool b => rfl
  | num s => rfl
  | str s => rfl
  | arr xs => rfl

theorem applyEntries_filter_obj (entries : List JsonValue) :
    ∀ st, applyEntries entries st = applyEntries (entries.filter isObjEntry) st := by
  induction entries with
  | nil => intro st; rfl
  | cons e rest ih =>
    intro st
    cases he : isObjEntry e with
    | false =>
      have hp : processEntry st e = .ok st := processEntry_nonObj st e he
      have hstep : applyEntries (e :: rest) st = applyEntries rest st := by
        rw [applyEntries, hp]
      rw [hstep, ih st]
      rw [show (e :: rest).filter isObjEntry = rest.filter isObjEntry from by
        simp [List.filter_cons, he]]
    | true =>
      rw [show (e :: rest).filter isObjEntry = e :: rest.filter isObjEntry from by
        simp [List.filter_cons, he]]
      unfold applyEntries
      rcases hp : processEntry st e with x | st1
      · rfl
      · exact ih st1

/-- C10: `applySyncPayload` on an array root silently skips every
non-object element — the run is identical to the run on the payload with
the non-object elements filtered out, so they cause no error, no
rollback, and no database change, and the object entries still apply. -/
theorem C10_non_object_entries_skipped (db : DB) (cache : SchemaCache)
    (entries : List JsonValue) :
    applySyncPayload db cache (.arr entries) =
      applySyncPayload db cache (.arr (entries.filter isObjEntry)) := by
  unfold applySyncPayload
  dsimp only
  rw [applyEntries_filter_obj]

/-! ## SyncEngine response handling (SyncEngine.cpp lines 554-712, 855-923) -/

structure RetryConfig where
  maxRetries : Nat
  retryInitialMs : Nat
  retryMaxMs : Nat
deriving Repr, DecidableEq

/-- `shouldRetryLocked`. -/
def shouldRetryLocked (cfg : RetryConfig) (retryCount : Nat) (statusCode : Int) : Bool :=
  if cfg.maxRetries ≤ retryCount then false
  else if statusCode = 0 then true
  else if statusCode = 408 ∨ statusCode = 429 then true
  else if 500 ≤ statusCode ∧ statusCode ≤ 599 then true
  else false

/-- `computeBackoffMsLocked` (called after `retryCount_++`). -/
def computeBackoffMsLocked (cfg : RetryConfig) (retryCount : Nat) : Nat :=
  if retryCount = 0 then cfg.retryInitialMs
  else min (cfg.retryInitialMs <<< (retryCount - 1)) cfg.retryMaxMs

/-- `scheduleRetryLocked`: `some (newRetryCount, delayMs)` when a retry
timer is armed. -/
def scheduleRetryLocked (cfg : RetryConfig) (shutdown retryScheduled : Bool)
    (retryCount : Nat) (statusCode : Int) : Option (Nat × Nat) :=
  if shutdown then none
  else if !shouldRetryLocked cfg retryCount statusCode || retryScheduled then none
  else some (retryCount + 1, computeBackoffMsLocked cfg (retryCount + 1))

inductive EngineEvent where
  | error (msg : String)
  | state (s : String)
  | authRequired
  | authFailed
  | http (status : Int)
  | retryScheduled (attempt : Nat) (delayMs : Nat)
  | syncCancelled
deriving Repr, DecidableEq

inductive PullAction where
  | dropped
  | retry (newRetryCount delayMs : Nat)
  | authRequest
  | finishFail (msg : String)
  | apply (body : String)
deriving Repr, DecidableEq

/-- The status-code dispatch of `handleHttpResponse` after the
error-message block (`events0`, `shouldReturn` and `completionError`
carry what that block did). -/
def pullStatusDispatch (cfg : RetryConfig) (retryScheduled : Bool)
    (retryCount authRetryCount maxAuthRetries : Nat) (statusCode : Int)
    (events0 : List EngineEvent) (shouldReturn : Bool) (completionError : String)
    (body : String) : List EngineEvent × PullAction :=
  if statusCode = 401 ∨ statusCode = 403 then
    if maxAuthRetries ≤ authRetryCount then
      (events0 ++ [.authFailed, .error "Max auth retries exceeded", .state "auth_failed"],
        .finishFail "Max auth retries exceeded")
    else
      (events0 ++ [.authRequired, .state "auth_required"], .authRequest)
  else if 400 ≤ statusCode then
    match scheduleRetryLocked cfg false retryScheduled retryCount statusCode with
    | some (rc, d) =>
      (events0 ++ [.retryScheduled (rc + 1) d, .state "retry_scheduled"], .retry rc d)
    | none =>
      (events0 ++ [.error ("HTTP " ++ toString statusCode), .state "error"],
        .finishFail ("HTTP " ++ toString statusCode))
  else
    if shouldReturn then (events0 ++ [.http statusCode], .finishFail completionError)
    else (events0 ++ [.http statusCode], .apply body)

/-- The decision logic of `handleHttpResponse` for the current sync:
which events are emitted and whether the response retries, fails the
sync, requests auth, or proceeds to the apply callback with the body. -/
def handlePullResponse (cfg : RetryConfig) (shutdown retryScheduled : Bool)
    (retryCount authRetryCount maxAuthRetries : Nat)
    (statusCode : Int) (errorMessage body : String) :
    List EngineEvent × PullAction :=
  if shutdown then ([], .dropped)
  else if errorMessage ≠ "" then
    match scheduleRetryLocked cfg false retryScheduled retryCount statusCode with
    | some (rc, d) =>
      ([.retryScheduled (rc + 1) d, .state "retry_scheduled"], .retry rc d)
    | none =>
      pullStatusDispatch cfg retryScheduled retryCount authRetryCount maxAuthRetries
        statusCode [.error errorMessage, .state "error"] true errorMessage body
  else
    pullStatusDispatch cfg retryScheduled retryCount authRetryCount maxAuthRetries
      statusCode [] false "" body

theorem shouldRetryLocked_true_iff (cfg : RetryConfig) (rc : Nat) (status : Int) :
    shouldRetryLocked cfg rc status = true ↔
      (rc < cfg.maxRetries ∧
        (status = 0 ∨ status = 408 ∨ status = 429 ∨ (500 ≤ status ∧ status ≤ 599))) := by
  unfold shouldRetryLocked
  by_cases hm : cfg.maxRetries ≤ rc
  · rw [if_pos hm]
    constructor
    · intro hq; cases hq
    · rintro ⟨h1, -⟩; omega
  · rw [if_neg hm]
    by_cases h0 : status = 0
    · rw [if_pos h0]
      exact iff_of_true rfl ⟨by omega, Or.inl h0⟩
    · rw [if_neg h0]
      by_cases h48 : status = 408 ∨ status = 429
      · rw [if_pos h48]
        exact iff_of_true rfl ⟨by omega, Or.inr (h48.imp id Or.inl)⟩
      · rw [if_neg h48]
        by_cases h5 : 500 ≤ status ∧ status ≤ 599
        · rw [if_pos h5]
          exact iff_of_true rfl ⟨by omega, Or.inr (Or.inr (Or.inr h5))⟩
        · rw [if_neg h5]
          constructor
          · intro hq; cases hq
          · rintro ⟨-, (hc | hc | hc | hc)⟩
            · exact absurd hc h0
            · exact absurd (Or.inl hc) h48
            · exact absurd (Or.inr hc) h48
            · exact absurd hc h5

theorem scheduleRetryLocked_cases (cfg : RetryConfig) (retrySch : Bool)
    (rc : Nat) (status : Int) :
    (retrySch = false ∧ shouldRetryLocked cfg rc status = true ∧
      scheduleRetryLocked cfg false retrySch rc status =
        some (rc + 1, computeBackoffMsLocked cfg (rc + 1))) ∨
    ((retrySch = true ∨ shouldRetryLocked cfg rc status = false) ∧
      scheduleRetryLocked cfg false retrySch rc status = none) := by
  unfold scheduleRetryLocked
  rw [if_neg (by simp)]
  cases hs : shouldRetryLocked cfg rc status
  · right
    exact ⟨Or.inr rfl, by simp⟩
  · cases retrySch
    · left
      exact ⟨rfl, rfl, by simp⟩
    · right
      exact ⟨Or.inl rfl, by simp⟩

/-- C9: an HTTP pull response with an empty `errorMessage` and a status
strictly below 400 (status 0 and 3xx included) is a successful pull: the
engine emits exactly the `http` event carrying that status and hands the
body to the apply callback — it is neither a transport failure nor an
error nor a retry. -/
theorem C9_success_below_400 (cfg : RetryConfig) (retrySch : Bool)
    (rc arc mar : Nat) (status : Int) (body : String)
    (hstatus : status < 400) :
    handlePullResponse cfg false retrySch rc arc mar status "" body =
      ([.http status], .apply body) := by
  unfold handlePullResponse
  rw [if_neg (by simp), if_neg (by simp)]
  unfold pullStatusDispatch
  rw [if_neg (by omega), if_neg (by omega), if_neg (by simp)]
  rfl

theorem C9_success_below_400_witness :
    handlePullResponse ⟨5, 1000, 30000⟩ false false 0 0 3 0 "" "pull-body" =
      ([.http 0], .apply "pull-body") :=
  C9_success_below_400 ⟨5, 1000, 30000⟩ false 0 0 3 0 "pull-body" (by decide)

/-- The spec claims status 0 always retries while retries remain, and
that the first retry waits exactly `retryInitialMs`.  In the code a
status-0 response with an empty `errorMessage` is a successful pull
(the apply path), and the first backoff is capped by `retryMaxMs`. -/
theorem C6_counterexample :
    (handlePullResponse ⟨5, 1000, 30000⟩ false false 0 0 3 0 "" "body").2 =
      .apply "body" ∧
    (handlePullResponse ⟨5, 1000, 500⟩ false false 0 0 3 500 "" "body").2 =
      .retry 1 500 :=
  ⟨rfl, rfl⟩

/-- C6: a pull response arms a retry iff no retry timer is armed,
`retryCount < maxRetries`, the status is 0, 408, 429 or 5xx, and the
response is failure-shaped (non-empty `errorMessage`, or status ≥ 400);
the armed delay is `min(retryInitialMs << retryCount, retryMaxMs)` —
the count is incremented first — so the first retry waits
`retryInitialMs` whenever `retryInitialMs ≤ retryMaxMs`. -/
theorem C6_retry_policy (cfg : RetryConfig) (retrySch : Bool)
    (rc arc mar : Nat) (status : Int) (errMsg body : String)
    (evs : List EngineEvent) (act : PullAction)
    (h : handlePullResponse cfg false retrySch rc arc mar status errMsg body =
      (evs, act)) :
    ((∃ n d, act = .retry n d) ↔
      (retrySch = false ∧ rc < cfg.maxRetries ∧
        (status = 0 ∨ status = 408 ∨ status = 429 ∨ (500 ≤ status ∧ status ≤ 599)) ∧
        (errMsg ≠ "" ∨ 400 ≤ status))) ∧
    (∀ n d, act = .retry n d →
      n = rc + 1 ∧ d = min (cfg.retryInitialMs <<< rc) cfg.retryMaxMs) ∧
    (∀ n d, act = .retry n d → rc = 0 → cfg.retryInitialMs ≤ cfg.retryMaxMs →
      d = cfg.retryInitialMs) := by
  have hback : computeBackoffMsLocked cfg (rc + 1) =
      min (cfg.retryInitialMs <<< rc) cfg.retryMaxMs := by
    unfold computeBackoffMsLocked
    rw [if_neg (by omega)]
    simp
  have hauth : ∀ ev0 sr ce, pullStatusDispatch cfg retrySch rc arc mar status ev0 sr ce body
      = (evs, act) → (status = 401 ∨ status = 403) → ∀ n d, act ≠ .retry n d := by
    intro ev0 sr ce hd hs n d
    unfold pullStatusDispatch at hd
    rw [if_pos hs] at hd
    split at hd <;>
      (obtain ⟨-, rfl⟩ := Prod.mk.injEq .. ▸ hd; intro hq; cases hq)
  unfold handlePullResponse at h
  rw [if_neg (by simp)] at h
  by_cases he : errMsg ≠ ""
  · rw [if_pos he] at h
    rcases scheduleRetryLocked_cases cfg retrySch rc status with ⟨hrs, hsr, heq⟩ | ⟨hor, heq⟩
    · rw [heq] at h
      obtain ⟨-, rfl⟩ := Prod.mk.injEq .. ▸ h
      rw [shouldRetryLocked_true_iff] at hsr
      refine ⟨iff_of_true ⟨_, _, rfl⟩ ⟨hrs, hsr.1, hsr.2, Or.inl he⟩, ?_, ?_⟩
      · intro n d hq
        injection hq with h1 h2
        exact ⟨h1.symm, by rw [← h2]; exact hback⟩
      · intro n d hq hrc hle
        injection hq with h1 h2
        rw [← h2, hback, hrc]
        simpa using Nat.min_eq_left hle
    · rw [heq] at h
      by_cases hs43 : status = 401 ∨ status = 403
      · have hnr := hauth _ _ _ h hs43
        refine ⟨iff_of_false (by rintro ⟨n, d, hq⟩; exact hnr n d hq) ?_, ?_, ?_⟩
        · rintro ⟨-, hrc, hset, -⟩
          rcases hs43 with h4 | h4 <;> subst h4 <;>
            rcases hset with hc | hc | hc | hc <;> omega
        · intro n d hq; exact absurd hq (hnr n d)
        · intro n d hq; exact absurd hq (hnr n d)
      · unfold pullStatusDispatch at h
        rw [if_neg hs43] at h
        by_cases h400 : 400 ≤ status
        · rw [if_pos h400] at h
          rcases scheduleRetryLocked_cases cfg retrySch rc status with ⟨hrs, hsr, heq2⟩ | ⟨hor2, heq2⟩
          · rw [heq] at heq2
            cases heq2
          · rw [heq2] at h
            obtain ⟨-, rfl⟩ := Prod.mk.injEq .. ▸ h
            refine ⟨iff_of_false (by rintro ⟨n, d, hq⟩; cases hq) ?_, ?_, ?_⟩
            · rintro ⟨hrs, hrc, hset, -⟩
              rcases hor2 with hq | hq
              · rw [hrs] at hq; cases hq
              · have hT := (shouldRetryLocked_true_iff cfg rc status).mpr ⟨hrc, hset⟩
                rw [hq] at hT
                cases hT
            · intro n d hq; cases hq
            · intro n d hq; cases hq
        · rw [if_neg h400] at h
          rw [if_pos rfl] at h
          obtain ⟨-, rfl⟩ := Prod.mk.injEq .. ▸ h
          refine ⟨iff_of_false (by rintro ⟨n, d, hq⟩; cases hq) ?_, ?_, ?_⟩
          · rintro ⟨hrs, hrc, hset, hfs⟩
            rcases hfs with hf | hf
            · rcases scheduleRetryLocked_cases cfg retrySch rc status with ⟨hrs2, hsr2, heq2⟩ | ⟨hor2, heq2⟩
              · rw [heq2] at heq; cases heq
              · rcases hor2 with hq | hq
                · rw [hrs] at hq; cases hq
                · have hT := (shouldRetryLocked_true_iff cfg rc status).mpr ⟨hrc, hset⟩
                  rw [hq] at hT
                  cases hT
            · exact h400 hf
          · intro n d hq; cases hq
          · intro n d hq; cases hq
  · rw [if_neg he] at h
    have he' : errMsg = "" := by simpa using he
    by_cases hs43 : status = 401 ∨ status = 403
    · have hnr := hauth _ _ _ h hs43
      refine ⟨iff_of_false (by rintro ⟨n, d, hq⟩; exact hnr n d hq) ?_, ?_, ?_⟩
      · rintro ⟨-, hrc, hset, -⟩
        rcases hs43 with h4 | h4 <;>
          (subst h4; rcases hset with hc | hc | hc | hc <;> omega)
      · intro n d hq; exact absurd hq (hnr n d)
      · intro n d hq; exact absurd hq (hnr n d)
    · unfold pullStatusDispatch at h
      rw [if_neg hs43] at h
      by_cases h400 : 400 ≤ status
      · rw [if_pos h400] at h
        rcases scheduleRetryLocked_cases cfg retrySch rc status with ⟨hrs, hsr, heq2⟩ | ⟨hor2, heq2⟩
        · rw [heq2] at h
          obtain ⟨-, rfl⟩ := Prod.mk.injEq .. ▸ h
          rw [shouldRetryLocked_true_iff] at hsr
          refine ⟨iff_of_true ⟨_, _, rfl⟩ ⟨hrs, hsr.1, hsr.2, Or.inr h400⟩, ?_, ?_⟩
          · intro n d hq
            injection hq with h1 h2
            exact ⟨h1.symm, by rw [← h2]; exact hback⟩
          · intro n d hq hrc hle
            injection hq with h1 h2
            rw [← h2, hback, hrc]
            simpa using Nat.min_eq_left hle
        · rw [heq2] at h
          obtain ⟨-, rfl⟩ := Prod.mk.injEq .. ▸ h
          refine ⟨iff_of_false (by rintro ⟨n, d, hq⟩; cases hq) ?_, ?_, ?_⟩
          · rintro ⟨hrs, hrc, hset, -⟩
            rcases hor2 with hq | hq
            · rw [hrs] at hq; cases hq
            · have hT := (shouldRetryLocked_true_iff cfg rc status).mpr ⟨hrc, hset⟩
              rw [hq] at hT
              cases hT
          · intro n d hq; cases hq
          · intro n d hq; cases hq
      · rw [if_neg h400] at h
        rw [if_neg (by simp)] at h
        obtain ⟨-, rfl⟩ := Prod.mk.injEq .. ▸ h
        refine ⟨iff_of_false (by rintro ⟨n, d, hq⟩; cases hq) ?_, ?_, ?_⟩
        · rintro ⟨hrs, hrc, hset, hfs⟩
          rcases hfs with hf | hf
          · exact hf he'
          · exact h400 hf
        · intro n d hq; cases hq
        · intro n d hq; cases hq

/-- Default-like retry configuration. -/
def C6cfg : RetryConfig := ⟨5, 1000, 30000⟩

theorem C6_retry_policy_witness :
    ((∃ n d, (handlePullResponse C6cfg false false 0 0 3 500 "" "b").2 =
        PullAction.retry n d) ↔
      (false = false ∧ 0 < C6cfg.maxRetries ∧
        ((500 : Int) = 0 ∨ (500 : Int) = 408 ∨ (500 : Int) = 429 ∨
          (500 ≤ (500 : Int) ∧ (500 : Int) ≤ 599)) ∧
        (("" : String) ≠ "" ∨ (400 : Int) ≤ 500))) ∧
    (∀ n d, (handlePullResponse C6cfg false false 0 0 3 500 "" "b").2 =
        PullAction.retry n d →
      n = 0 + 1 ∧ d = min (C6cfg.retryInitialMs <<< 0) C6cfg.retryMaxMs) ∧
    (∀ n d, (handlePullResponse C6cfg false false 0 0 3 500 "" "b").2 =
        PullAction.retry n d → 0 = 0 →
      C6cfg.retryInitialMs ≤ C6cfg.retryMaxMs →
      d = C6cfg.retryInitialMs) :=
  C6_retry_policy C6cfg false 0 0 3 500 "" "b"
    (handlePullResponse C6cfg false false 0 0 3 500 "" "b").1
    (handlePullResponse C6cfg false false 0 0 3 500 "" "b").2 rfl

/-! ## SyncEngine completion-callback lifecycle (SyncEngine.cpp)

Callbacks are identified by numeric ids; `calls` logs each invocation
`(id, ok, errorMessage)`.  Each action is one atomic locked section of
the engine (plus the callback flushes it performs right after). -/

structure EngState where
  shutdownF : Bool
  syncInFlight : Bool
  retryScheduledF : Bool
  retryCount : Nat
  syncId : Nat
  completion : Option Nat
  pendingCompletion : Option Nat
  pendingReason : String
  calls : List (Nat × Bool × String)
deriving Repr, DecidableEq

inductive SyncAction where
  | start (reason : String) (cb : Option Nat)
  | respondFail (msg : String)
  | respondRetry
  | retryFire
  | respondAuth
  | respondSuccess
  | shutdown
deriving Repr, DecidableEq

/-- The callback invocations a finishing path performs:
`completionCallback_` first, then `pendingCompletionCallback_`. -/
def flushCalls (st : EngState) (ok : Bool) (msg : String) :
    List (Nat × Bool × String) :=
  (match st.completion with
   | some c => [(c, ok, msg)]
   | none => []) ++
  (match st.pendingCompletion with
   | some c => [(c, ok, msg)]
   | none => [])

def stepSync (st : EngState) (a : SyncAction) : EngState :=
  match a with
  | .start reason cb =>
    if st.shutdownF then st
    else if st.syncInFlight then
      { st with pendingReason := reason, pendingCompletion := cb }
    else
      { st with syncInFlight := true, retryScheduledF := false, retryCount := 0,
                completion := match cb with | some c => some c | none => st.completion,
                syncId := st.syncId + 1 }
  | .respondFail msg =>
    if st.shutdownF ∨ ¬ st.syncInFlight then st
    else
      { st with syncInFlight := false, retryScheduledF := false, retryCount := 0,
                calls := st.calls ++ flushCalls st false msg,
                completion := none, pendingCompletion := none, pendingReason := "" }
  | .respondRetry =>
    if st.shutdownF ∨ ¬ st.syncInFlight ∨ st.retryScheduledF then st
    else { st with retryScheduledF := true, retryCount := st.retryCount + 1 }
  | .retryFire =>
    if st.shutdownF ∨ ¬ st.syncInFlight then st
    else { st with retryScheduledF := false }
  | .respondAuth =>
    if st.shutdownF ∨ ¬ st.syncInFlight then st
    else { st with syncInFlight := false, retryScheduledF := false, retryCount := 0 }
  | .respondSuccess =>
    if st.shutdownF ∨ ¬ st.syncInFlight then st
    else
      let calls1 := st.calls ++
        (match st.completion with | some c => [(c, true, "")] | none => [])
      if st.pendingReason ≠ "" then
        { st with calls := calls1, completion := st.pendingCompletion,
                  pendingCompletion := none, pendingReason := "",
                  syncInFlight := true, retryScheduledF := false, retryCount := 0,
                  syncId := st.syncId + 1 }
      else
        { st with calls := calls1, completion := none, pendingCompletion := none,
                  pendingReason := "", syncInFlight := false,
                  retryScheduledF := false, retryCount := 0 }
  | .shutdown =>
    { st with shutdownF := true, syncInFlight := false, retryScheduledF := false,
              retryCount := 0, pendingReason := "", syncId := st.syncId + 1 }

def initSync : EngState := ⟨false, false, false, 0, 0, none, none, "", []⟩

def runSync (tr : List SyncAction) : EngState := tr.foldl stepSync initSync

/-- The callback ids the trace hands to `startWithCompletion`. -/
def suppliedCbs : List SyncAction → List Nat
  | [] => []
  | .start _ (some c) :: tr => c :: suppliedCbs tr
  | _ :: tr => suppliedCbs tr

/-- Ids live in the call log or in one of the two callback slots. -/
def usedIds (st : EngState) : List Nat :=
  st.calls.map (fun x => x.1) ++ st.completion.toList ++ st.pendingCompletion.toList

def newIds : SyncAction → List Nat
  | .start _ (some c) => [c]
  | _ => []

theorem stepSync_count (st : EngState) (a : SyncAction) (c : Nat) :
    (usedIds (stepSync st a)).count c ≤
      (usedIds st).count c + (newIds a).count c := by
  cases a with
  | start reason cb =>
    simp only [stepSync]
    split
    · simp [newIds]
    · split <;>
        (rcases st with ⟨sh, fl, rs, rc, si, comp, pend, pr, calls⟩;
         rcases cb with _ | c0 <;> rcases comp with _ | c1 <;> rcases pend with _ | c2 <;>
           simp only [usedIds, newIds, Option.toList, List.map_append, List.map_cons,
             List.map_nil, List.count_append, List.append_nil, List.nil_append] <;> omega)
  | respondFail msg =>
    simp only [stepSync]
    split
    · simp [newIds]
    · rcases st with ⟨sh, fl, rs, rc, si, comp, pend, pr, calls⟩
      rcases comp with _ | c1 <;> rcases pend with _ | c2 <;>
        simp [usedIds, flushCalls, newIds, List.count_append] <;> omega
  | respondRetry =>
    simp only [stepSync]
    split
    · simp [newIds]
    · simp [usedIds, newIds]
  | retryFire =>
    simp only [stepSync]
    split
    · simp [newIds]
    · simp [usedIds, newIds]
  | respondAuth =>
    simp only [stepSync]
    split
    · simp [newIds]
    · simp [usedIds, newIds]
  | respondSuccess =>
    simp only [stepSync]
    split
    · simp [newIds]
    · split <;>
        (rcases st with ⟨sh, fl, rs, rc, si, comp, pend, pr, calls⟩;
         rcases comp with _ | c1 <;> rcases pend with _ | c2 <;>
           simp only [usedIds, newIds, Option.toList, List.map_append, List.map_cons,
             List.map_nil, List.count_append, List.append_nil, List.nil_append] <;> omega)
  | shutdown =>
    simp only [stepSync]
    simp [usedIds, newIds]

theorem suppliedCbs_cons (a : SyncAction) (tr : List SyncAction) :
    suppliedCbs (a :: tr) = newIds a ++ suppliedCbs tr := by
  cases a with
  | start reason cb =>
    cases cb with
    | none => rfl
    | some c => rfl
  | respondFail msg => rfl
  | respondRetry => rfl
  | retryFire => rfl
  | respondAuth => rfl
  | respondSuccess => rfl
  | shutdown => rfl

theorem runSync_count (tr : List SyncAction) :
    ∀ (st : EngState) (c : Nat),
      (usedIds (tr.foldl stepSync st)).count c ≤
        (usedIds st).count c + (suppliedCbs tr).count c := by
  induction tr with
  | nil => intro st c; simp [suppliedCbs]
  | cons a tr ih =>
    intro st c
    rw [List.foldl_cons, suppliedCbs_cons, List.count_append]
    calc (usedIds (tr.foldl stepSync (stepSync st a))).count c
        ≤ (usedIds (stepSync st a)).count c + (suppliedCbs tr).count c := ih _ c
      _ ≤ (usedIds st).count c + (newIds a).count c + (suppliedCbs tr).count c := by
          have := stepSync_count st a c
          omega
      _ = (usedIds st).count c + ((newIds a).count c + (suppliedCbs tr).count c) := by
          omega

/-- C4: over every interleaving of starts, queued-slot replacement,
retries, auth round-trips, failures, successes and shutdown, a
completion callback is invoked AT MOST once (assuming each
`startWithCompletion` call supplies a fresh callback); exactly-once
does not hold, because a queued start replaces — and silently drops —
the previously queued completion. -/
theorem C4_completion_at_most_once (tr : List SyncAction) (c : Nat)
    (hn : (suppliedCbs tr).Nodup) :
    ((runSync tr).calls.map (fun x => x.1)).count c ≤ 1 := by
  have h1 : ((runSync tr).calls.map (fun x => x.1)).count c ≤
      (usedIds (runSync tr)).count c := by
    unfold usedIds
    rw [List.count_append, List.count_append]
    omega
  have h2 : (usedIds (runSync tr)).count c ≤
      (usedIds initSync).count c + (suppliedCbs tr).count c :=
    runSync_count tr initSync c
  have h3 : (usedIds initSync).count c = 0 := rfl
  have h4 : (suppliedCbs tr).count c ≤ 1 :=
    List.nodup_iff_count_le_one.mp hn c
  omega

/-- The spec promises exactly-once delivery; in the code a second queued
start overwrites `pendingCompletionCallback_`, so the first queued
completion (id 2) is never invoked even though the run drains fully. -/
theorem C4_counterexample :
    (runSync [.start "a" (some 1), .start "b" (some 2), .start "c" (some 3),
              .respondSuccess, .respondSuccess]).calls =
        [(1, true, ""), (3, true, "")] ∧
    (runSync [.start "a" (some 1), .start "b" (some 2), .start "c" (some 3),
              .respondSuccess, .respondSuccess]).syncInFlight = false ∧
    (runSync [.start "a" (some 1), .start "b" (some 2), .start "c" (some 3),
              .respondSuccess, .respondSuccess]).completion = none ∧
    (runSync [.start "a" (some 1), .start "b" (some 2), .start "c" (some 3),
              .respondSuccess, .respondSuccess]).pendingCompletion = none :=
  ⟨rfl, rfl, rfl, rfl⟩

theorem C4_completion_at_most_once_witness :
    ((runSync [.start "a" (some 7), .start "b" (some 8), .respondSuccess,
               .respondSuccess]).calls.map (fun x => x.1)).count 7 ≤ 1 :=
  C4_completion_at_most_once
    [.start "a" (some 7), .start "b" (some 8), .respondSuccess, .respondSuccess]
    7 (by decide)

/-! ## Claim C3: cancelSync (no implementation exists in src/; the
tests exercise it, so the operation is modelled from the spec). -/

/-- Anything pending or in flight. -/
def syncBusy (st : EngState) : Bool :=
  st.syncInFlight || st.retryScheduledF || st.completion.isSome ||
    st.pendingCompletion.isSome || (st.pendingReason != "")

/-- Modelled from the spec: `cancelSync` — if anything is pending or in
flight, increment `syncId` (invalidating stale continuations), fire
every stored completion with `"cancelled_for_foreground"`, transition
to idle, and emit `sync_cancelled`; when idle it is a no-op and not an
error. -/
def cancelSync (st : EngState) : EngState × List EngineEvent :=
  if syncBusy st then
    ({ st with syncId := st.syncId + 1, syncInFlight := false,
               retryScheduledF := false, retryCount := 0,
               calls := st.calls ++ flushCalls st false "cancelled_for_foreground",
               completion := none, pendingCompletion := none, pendingReason := "" },
     [.state "idle", .syncCancelled])
  else (st, [])

theorem flushCalls_ids (st : EngState) (ok : Bool) (msg : String) :
    (flushCalls st ok msg).map (fun x => x.1) =
      st.completion.toList ++ st.pendingCompletion.toList := by
  unfold flushCalls
  rcases st.completion with _ | c1 <;> rcases st.pendingCompletion with _ | c2 <;> rfl

theorem mem_flushCalls (st : EngState) (ok : Bool) (msg : String)
    (p : Nat × Bool × String) (h : p ∈ flushCalls st ok msg) :
    p.2.1 = ok ∧ p.2.2 = msg := by
  unfold flushCalls at h
  rcases List.mem_append.mp h with h | h
  · rcases hc : st.completion with _ | c1
    · rw [hc] at h; cases h
    · rw [hc] at h
      have h' := List.mem_singleton.mp h
      subst h'
      exact ⟨rfl, rfl⟩
  · rcases hc : st.pendingCompletion with _ | c1
    · rw [hc] at h; cases h
    · rw [hc] at h
      have h' := List.mem_singleton.mp h
      subst h'
      exact ⟨rfl, rfl⟩

/-- C3: while anything is pending or in flight, `cancelSync` increments
the `syncId` generation counter, delivers each stored completion exactly
once (once per occupied slot) with `"cancelled_for_foreground"`, leaves
the engine idle, and emits `sync_cancelled`; called while idle it is a
no-op (same state, no events), not an error. -/
theorem C3_cancel_sync (st : EngState) :
    (syncBusy st = true →
      (cancelSync st).1.syncId = st.syncId + 1 ∧
      syncBusy (cancelSync st).1 = false ∧
      (cancelSync st).2 = [.state "idle", .syncCancelled] ∧
      (∀ c, ((cancelSync st).1.calls.map (fun x => x.1)).count c =
        (st.calls.map (fun x => x.1)).count c +
          (st.completion.toList ++ st.pendingCompletion.toList).count c) ∧
      (∀ p ∈ (cancelSync st).1.calls,
        p ∈ st.calls ∨ (p.2.1 = false ∧ p.2.2 = "cancelled_for_foreground"))) ∧
    (syncBusy st = false → cancelSync st = (st, [])) := by
  constructor
  · intro hb
    unfold cancelSync
    rw [if_pos hb]
    refine ⟨rfl, rfl, rfl, ?_, ?_⟩
    · intro c
      dsimp only
      rw [List.map_append, List.count_append, flushCalls_ids]
    · intro p hp
      dsimp only at hp
      rcases List.mem_append.mp hp with h | h
      · exact Or.inl h
      · exact Or.inr (mem_flushCalls st false "cancelled_for_foreground" p h)
  · intro hb
    unfold cancelSync
    rw [if_neg (by rw [hb]; exact Bool.false_ne_true)]

/-- A state with one sync in flight, its completion (id 9) stored, and a
queued start (id 10, reason `"bg"`). -/
def C3st : EngState := ⟨false, true, false, 0, 5, some 9, some 10, "bg", []⟩

theorem C3_cancel_sync_witness :
    (cancelSync C3st).1.syncId = C3st.syncId + 1 ∧
    syncBusy (cancelSync C3st).1 = false ∧
    (cancelSync C3st).2 = [.state "idle", .syncCancelled] ∧
    (∀ c, ((cancelSync C3st).1.calls.map (fun x => x.1)).count c =
      (C3st.calls.map (fun x => x.1)).count c +
        (C3st.completion.toList ++ C3st.pendingCompletion.toList).count c) ∧
    (∀ p ∈ (cancelSync C3st).1.calls,
      p ∈ C3st.calls ∨ (p.2.1 = false ∧ p.2.2 = "cancelled_for_foreground")) :=
  (C3_cancel_sync C3st).1 (by decide)

end Watermelon
